import Mathlib

/-!
Shallow embedding of the poker-seven-deuce server engine
(`src/server/handEvaluator.js`, `src/server/deck.js`, and the `GameRoom`
class) together with proofs settling the frozen claims about it.

Modelling conventions, used throughout:
* JS numbers are integers in every code path touched here; chip quantities
  are embedded as `Int` (so subtraction is exact, as in JS), card values and
  hand ranks as `Nat`.
* Seat indices are JS numbers that may be `-1`/`null`; they are embedded as
  `Int`, with nullable fields as `Option Int`.
* Socket ids (JS strings) are embedded as `Nat` keys of an association-list
  player store; the JS aliasing between `room.seats[i]` and
  `room.players.get(sid)` (both hold the same object) is rendered by keeping
  the player record only in the store and letting seats hold the key.
* Display-only data (description strings, usernames, showdown snapshots,
  timestamps) and the privileged-mode "rigged hand" test fixture are omitted:
  no claim mentions them and they do not feed back into game state.
* `setTimeout` callbacks are deferred work, not part of the synchronous
  state transition; each site is marked with a comment.
-/

namespace SevenDeuce

/-! ## Cards (`src/server/deck.js`, `handEvaluator.js` RANK_VALUES) -/

/-- Embedding of the 13 JS rank strings. -/
inductive Rank
  | r2 | r3 | r4 | r5 | r6 | r7 | r8 | r9 | r10 | rJ | rQ | rK | rA
deriving DecidableEq, Repr

/-- Embedding of the 4 JS suit strings. -/
inductive Suit
  | hearts | diamonds | clubs | spades
deriving DecidableEq, Repr

/-- Card as in `deck.js`: a `{ rank, suit }` pair. -/
structure Card where
  rank : Rank
  suit : Suit
deriving DecidableEq, Repr

/-- Embeds `getRankValue` together with the `RANK_VALUES` table
(`'2' ↦ 2, …, 'A' ↦ 14`). -/
def getRankValue : Rank → Nat
  | .r2 => 2 | .r3 => 3 | .r4 => 4 | .r5 => 5 | .r6 => 6 | .r7 => 7
  | .r8 => 8 | .r9 => 9 | .r10 => 10 | .rJ => 11 | .rQ => 12 | .rK => 13
  | .rA => 14

/-- Embeds `dealCards(deck, count)`: `{ dealt: deck.slice(0, count),
remaining: deck.slice(count) }`. -/
def dealCards (deck : List Card) (count : Nat) : List Card × List Card :=
  (deck.take count, deck.drop count)

/-! ## Hand evaluator (`src/server/handEvaluator.js`)

`HAND_RANKS`: HIGH_CARD 1, PAIR 2, TWO_PAIR 3, THREE_OF_A_KIND 4, STRAIGHT 5,
FLUSH 6, FULL_HOUSE 7, FOUR_OF_A_KIND 8, STRAIGHT_FLUSH 9, ROYAL_FLUSH 10. -/

/-- Evaluated hand value: the `rank` and `highCards` fields of the object
returned by `evaluateFiveCards`/`evaluateHand`. The `description` string and
the `cards` echo are display-only and omitted. -/
structure HandEval where
  rank : Nat
  highCards : List Nat
deriving DecidableEq, Repr

/-- Embeds `getCombinations(cards, size)`: all size-element subsequences, in
the same order as the JS backtracking recursion (combinations containing the
earliest card first). -/
def getCombinations {α : Type} : List α → Nat → List (List α)
  | _, 0 => [[]]
  | [], _ + 1 => []
  | x :: xs, n + 1 =>
      ((getCombinations xs n).map (fun c => x :: c)) ++ getCombinations xs (n + 1)

/-- Embeds `isFlush`: every card has the suit of the first card. -/
def isFlush : List Card → Bool
  | [] => true
  | c :: rest => rest.all (fun d => d.suit == c.suit)

/-- Descending insertion sort on `Nat`, embedding the JS
`values.sort((a, b) => b - a)` (equal elements are indistinguishable, so any
descending sort yields the JS result). -/
def sortDescNat (l : List Nat) : List Nat :=
  l.insertionSort (fun a b => b ≤ a)

/-- Strictly-descending run test: embeds the JS loop checking
`values[i] - values[i+1] === 1` for consecutive entries. -/
def seqDesc : List Nat → Bool
  | a :: b :: t => a == b + 1 && seqDesc (b :: t)
  | _ => true

/-- Embeds `getStraightHighCard`: the high card value of a straight, `0`
otherwise. The wheel test compares against `[14, 5, 4, 3, 2]`; it is only
ever applied to the 5-card lists produced by `getCombinations`. -/
def getStraightHighCard (cards : List Card) : Nat :=
  let values := sortDescNat (cards.map (fun c => getRankValue c.rank))
  if seqDesc values then values.headD 0
  else if values == [14, 5, 4, 3, 2] then 5
  else 0

/-- Embeds `getRankCounts` followed by `Object.entries`: the JS object has
integer-like keys, which `Object.entries` yields in ascending numeric order,
so the result is the ascending list of (value, multiplicity) pairs for the
values present. All card values are `< 15`. -/
def getRankCounts (cards : List Card) : List (Nat × Nat) :=
  (List.range 15).filterMap (fun v =>
    let k := (cards.map (fun c => getRankValue c.rank)).count v
    if k ≠ 0 then some (v, k) else none)

/-- Precedence relation of the JS comparator
`(a, b) => b.count - a.count || b.rank - a.rank`: count descending, then rank
descending. -/
def cvRel (a b : Nat × Nat) : Prop :=
  b.2 < a.2 ∨ (a.2 = b.2 ∧ b.1 ≤ a.1)

instance : DecidableRel cvRel := fun a b => by
  unfold cvRel; infer_instance

/-- Embeds the `countValues` sort. The comparator is total and antisymmetric
on the distinct-rank entries produced by `getRankCounts`, so insertion sort
computes the JS result. -/
def sortCounts (l : List (Nat × Nat)) : List (Nat × Nat) :=
  l.insertionSort cvRel

/-- Embeds `evaluateFiveCards`. The branch structure, guards and `highCards`
payloads follow the source line by line; `countValues[i]` reads are guarded
by the same conditions that make them safe in JS. -/
def evaluateFiveCards (cards : List Card) : HandEval :=
  let flush := isFlush cards
  let straightHigh := getStraightHighCard cards
  let cv := sortCounts (getRankCounts cards)
  let highCards := cv.map (fun e => e.1)
  let c0 := cv.getD 0 (0, 0)
  let c1 := cv.getD 1 (0, 0)
  if flush && straightHigh == 14 then
    { rank := 10, highCards := [14] }          -- Royal Flush
  else if flush && decide (0 < straightHigh) then
    { rank := 9, highCards := [straightHigh] } -- Straight Flush
  else if c0.2 == 4 then
    { rank := 8, highCards := highCards }      -- Four of a Kind
  else if c0.2 == 3 && c1.2 == 2 then
    { rank := 7, highCards := highCards }      -- Full House
  else if flush then
    { rank := 6, highCards := highCards }      -- Flush
  else if decide (0 < straightHigh) then
    { rank := 5, highCards := [straightHigh] } -- Straight
  else if c0.2 == 3 then
    { rank := 4, highCards := highCards }      -- Three of a Kind
  else if c0.2 == 2 && c1.2 == 2 then
    { rank := 3,                               -- Two Pair
      highCards := [max c0.1 c1.1, min c0.1 c1.1, (cv.getD 2 (0, 0)).1] }
  else if c0.2 == 2 then
    { rank := 2, highCards := highCards }      -- Pair
  else
    { rank := 1, highCards := highCards }      -- High Card

/-- Embeds the `compareHands` tiebreaker loop over
`min(highCards lengths)` entries: the first differing entry decides. -/
def cmpHigh : List Nat → List Nat → Int
  | a :: as, b :: bs => if a ≠ b then (a : Int) - b else cmpHigh as bs
  | _, _ => 0

/-- Embeds `compareHands`: positive when the first hand wins, negative when
the second wins, `0` for a tie. -/
def compareHands (h1 h2 : HandEval) : Int :=
  if h1.rank ≠ h2.rank then (h1.rank : Int) - (h2.rank : Int)
  else cmpHigh h1.highCards h2.highCards

/-- Embeds the under-5-cards branch of `evaluateHand` (partial evaluation for
UI hinting). -/
def evaluatePartial (allCards : List Card) : HandEval :=
  let cv := sortCounts (getRankCounts allCards)
  let highCards := cv.map (fun e => e.1)
  let c0 := cv.getD 0 (0, 0)
  let c1 := cv.getD 1 (0, 0)
  if c0.2 == 4 then
    { rank := 8, highCards := highCards }
  else if c0.2 == 3 && decide (1 < cv.length) && c1.2 == 2 then
    { rank := 7, highCards := highCards }
  else if c0.2 == 3 then
    { rank := 4, highCards := highCards }
  else if c0.2 == 2 && decide (1 < cv.length) && c1.2 == 2 then
    { rank := 3, highCards := [max c0.1 c1.1, min c0.1 c1.1] }
  else if c0.2 == 2 then
    { rank := 2, highCards := highCards }
  else
    { rank := 1, highCards := highCards }

/-- Embeds `evaluateHand(holeCards, communityCards)`: `null` under 2 cards,
partial evaluation under 5, otherwise the best `evaluateFiveCards` value over
all 5-card combinations (first-seen wins ties, as in the JS
`!bestHand || compareHands(hand, bestHand) > 0` fold). -/
def evaluateHand (holeCards : List Card) (communityCards : List Card) :
    Option HandEval :=
  let allCards := holeCards ++ communityCards
  if allCards.length < 2 then none
  else if allCards.length < 5 then some (evaluatePartial allCards)
  else
    (getCombinations allCards 5).foldl
      (fun best combo =>
        let hand := evaluateFiveCards combo
        match best with
        | none => some hand
        | some b => if 0 < compareHands hand b then some hand else some b)
      none

/-! ## Room state (`GameRoom` constructor)

Fields that only feed the UI (display names, timestamps, the showdown
snapshot, `ritResults`, the vestigial `sidePots` array that is written but
never read, seat-request queue, god-mode fixtures) are omitted; every field
read by the game logic under proof is present. -/

/-- Embeds `PHASES`. -/
inductive Phase
  | waiting | preFlop | flop | turn | river | showdown
deriving DecidableEq, Repr

/-- Embeds `ACTIONS`. -/
inductive PAction
  | fold | check | call | bet | raise | allIn
deriving DecidableEq, Repr

/-- Player record as created by `addPlayer`/`takeSeat`. -/
structure Player where
  seatIndex : Option Int
  bankroll : Int
  cards : List Card
  isFolded : Bool
  isAllIn : Bool
  currentBet : Int
  totalBetThisHand : Int
  waitingForNextHand : Bool
deriving DecidableEq, Repr

/-- Room state. `seats` holds the player-store key of the occupant
(JS holds the object itself; `players` is the single store here, see the
module comment). -/
structure Room where
  maxPlayers : Nat
  seats : List (Option Nat)
  players : List (Nat × Player)
  phase : Phase
  deck : List Card
  communityCards : List Card
  secondBoard : List Card
  pot : Int
  currentBet : Int
  minRaise : Int
  smallBlind : Int
  bigBlind : Int
  dealerSeat : Int
  sbSeat : Int
  bbSeat : Int
  currentTurn : Option Int
  lastRaiser : Option Int
  actedThisRound : Finset Int
  isGameRunning : Bool
  isPaused : Bool
  handNumber : Nat
  runItTwiceOffered : Bool
  runItTwiceAccepted : Bool
  runItTwiceVotes : List (Nat × Bool)
  runItTwiceEligiblePlayers : List Nat
deriving DecidableEq

/-- First-match lookup in the player store (embeds `players.get(socketId)`). -/
def storeGet (ps : List (Nat × Player)) (sid : Nat) : Option Player :=
  match ps with
  | [] => none
  | (k, v) :: t => if k = sid then some v else storeGet t sid

/-- Pointwise update of the stored player with the given key (embeds a JS
mutation through either alias of the player object). -/
def storeSet (ps : List (Nat × Player)) (sid : Nat) (f : Player → Player) :
    List (Nat × Player) :=
  ps.map (fun q => if q.1 = sid then (q.1, f q.2) else q)

/-- Look up a player by socket id. -/
def getPlayer (r : Room) (sid : Nat) : Option Player := storeGet r.players sid

/-- Mutate a player in place. -/
def updatePlayer (r : Room) (sid : Nat) (f : Player → Player) : Room :=
  { r with players := storeSet r.players sid f }

/-- Embeds `this.seats[i]` (out-of-range and negative reads yield the JS
`undefined`, i.e. `none`). -/
def seatSid (r : Room) (i : Int) : Option Nat :=
  if 0 ≤ i then (r.seats.getD i.toNat none) else none

/-- The player object occupying seat `i`, if any. -/
def seatPlayer (r : Room) (i : Int) : Option Player :=
  (seatSid r i).bind (getPlayer r)

/-- The non-null entries of `this.seats` in seat order, with their store
keys (JS iterates the player objects directly). -/
def seatEntries (r : Room) : List (Nat × Player) :=
  r.seats.filterMap (fun os =>
    os.bind (fun sid => (getPlayer r sid).map (fun p => (sid, p))))

/-- Embeds `getSeatedPlayers` (excludes players waiting for the next hand). -/
def getSeatedPlayers (r : Room) : List (Nat × Player) :=
  (seatEntries r).filter (fun e => !e.2.waitingForNextHand)

/-- Embeds `getActivePlayers` (seated and not folded). -/
def getActivePlayers (r : Room) : List (Nat × Player) :=
  (seatEntries r).filter (fun e => !e.2.isFolded)

/-- Embeds `getActingPlayers` (seated, not folded, not all-in). -/
def getActingPlayers (r : Room) : List (Nat × Player) :=
  (seatEntries r).filter (fun e => !e.2.isFolded && !e.2.isAllIn)

/-- Loop of `findNextOccupiedSeat`: `i` runs `1..maxPlayers`; `fuel` is the
number of iterations left. JS `%` equals `Int.emod` on the non-negative
dividends produced here (`fromSeat ≥ -1`, `i ≥ 1`). -/
def scanOccupied (r : Room) (fromSeat : Int) : Nat → Nat → Int
  | _, 0 => fromSeat
  | i, fuel + 1 =>
    let nextSeat := (fromSeat + (i : Int)).emod (r.maxPlayers : Int)
    if (seatSid r nextSeat).isSome then nextSeat
    else scanOccupied r fromSeat (i + 1) fuel

/-- Embeds `findNextOccupiedSeat(fromSeat)`: first occupied seat clockwise,
falling back to `fromSeat` after a full lap. -/
def findNextOccupiedSeat (r : Room) (fromSeat : Int) : Int :=
  scanOccupied r fromSeat 1 r.maxPlayers

/-- Loop of `findNextActivePlayer` (same shape, testing non-folded,
non-all-in occupants, returning `null` after a full lap). -/
def scanActive (r : Room) (fromSeat : Int) : Nat → Nat → Option Int
  | _, 0 => none
  | i, fuel + 1 =>
    let nextSeat := (fromSeat + (i : Int)).emod (r.maxPlayers : Int)
    match seatPlayer r nextSeat with
    | some p =>
        if !p.isFolded && !p.isAllIn then some nextSeat
        else scanActive r fromSeat (i + 1) fuel
    | none => scanActive r fromSeat (i + 1) fuel

/-- Embeds `findNextActivePlayer(fromSeat)`. -/
def findNextActivePlayer (r : Room) (fromSeat : Int) : Option Int :=
  scanActive r fromSeat 1 r.maxPlayers

/-- Embeds `postBlind(seatIndex, amount)`. -/
def postBlind (r : Room) (seatIndex : Int) (amount : Int) : Room :=
  match seatSid r seatIndex with
  | none => r
  | some sid =>
    match getPlayer r sid with
    | none => r  -- unreachable: seats always reference stored players
    | some p =>
      let actualAmount := min amount p.bankroll
      let r1 := updatePlayer r sid (fun q =>
        let q1 := { q with bankroll := q.bankroll - actualAmount,
                           currentBet := actualAmount,
                           totalBetThisHand := q.totalBetThisHand + actualAmount }
        if q1.bankroll = 0 then { q1 with isAllIn := true } else q1)
      { r1 with pot := r1.pot + actualAmount }

/-- Embeds `isBettingRoundComplete`: no actable player remains, or all have
acted and matched the current bet. `Set.has(null)` is `false` in JS, matching
the `Option.elim` here. -/
def isBettingRoundComplete (r : Room) : Bool :=
  (getActingPlayers r).all (fun e =>
    (e.2.seatIndex.elim false (fun i => decide (i ∈ r.actedThisRound))) &&
    e.2.currentBet == r.currentBet)

/-- Single-layer descriptor produced by `calculateSidePots`. -/
structure SidePot where
  amount : Int
  eligibleSeats : List Int
  level : Int
deriving DecidableEq, Repr

/-- Contributor record built inside `calculateSidePots`. -/
structure Contributor where
  seatIndex : Int
  contribution : Int
  isActive : Bool
deriving DecidableEq, Repr

/-- Embeds `[...new Set(l)].sort((a, b) => a - b)`: the strictly ascending
list of the distinct values of `l` (canonical, independent of input order). -/
def insertLevel (x : Int) : List Int → List Int
  | [] => [x]
  | y :: ys =>
      if x < y then x :: y :: ys
      else if x = y then y :: ys
      else y :: insertLevel x ys

/-- Folds `insertLevel` over the contribution list. -/
def uniqueSortedLevels (l : List Int) : List Int := l.foldr insertLevel []

/-- Loop body of `calculateSidePots`: one pot layer per level, carrying
`processedAmount` (the previous level). -/
def sidePotsLoop (contributors activeContributors : List Contributor) :
    List Int → Int → List SidePot
  | [], _ => []
  | level :: rest, processedAmount =>
    let potAmount := contributors.foldl (fun sum c =>
      let eligibleAmount :=
        min c.contribution level - min c.contribution processedAmount
      sum + max 0 eligibleAmount) 0
    let here :=
      if 0 < potAmount then
        [{ amount := potAmount,
           eligibleSeats :=
             (activeContributors.filter (fun c => level ≤ c.contribution)).map
               (fun c => c.seatIndex),
           level := level : SidePot }]
      else []
    here ++ sidePotsLoop contributors activeContributors rest level

/-- Embeds `calculateSidePots`. The contributor sort is the JS stable
ascending sort by contribution (ties keep seat order). -/
def calculateSidePots (r : Room) : List SidePot :=
  if (getActivePlayers r).length = 0 then []
  else
    let contributors :=
      (((seatEntries r).filter (fun e => 0 < e.2.totalBetThisHand)).map
        (fun e =>
          { seatIndex := e.2.seatIndex.getD (-1),
            contribution := e.2.totalBetThisHand,
            isActive := !e.2.isFolded : Contributor })).insertionSort
        (fun a b => a.contribution ≤ b.contribution)
    if contributors.length = 0 then []
    else
      let activeContributors := contributors.filter (fun c => c.isActive)
      let uniqueLevels :=
        uniqueSortedLevels (activeContributors.map (fun c => c.contribution))
      sidePotsLoop contributors activeContributors uniqueLevels 0

/-- Evaluated-hand record built at showdown (`player` object reference is
rendered as the store key plus the seat index; display fields omitted). -/
structure PlayerHand where
  sid : Nat
  seatIndex : Int
  handRank : Nat
  highCards : List Nat
deriving DecidableEq, Repr

/-- Builds the `playerHands`/`evalBoard` list: one entry per active player,
`handResult?.rank || 0` and `handResult?.highCards || []`. -/
def mkPlayerHands (r : Room) (board : List Card) : List PlayerHand :=
  (getActivePlayers r).map (fun e =>
    match evaluateHand e.2.cards board with
    | some h =>
        { sid := e.1, seatIndex := e.2.seatIndex.getD (-1),
          handRank := h.rank, highCards := h.highCards }
    | none =>
        { sid := e.1, seatIndex := e.2.seatIndex.getD (-1),
          handRank := 0, highCards := [] })

/-- Comparator shared by `findBestHand`, the showdown sort and the winner
filters: rank difference, else first differing high card. -/
def phCompare (a b : PlayerHand) : Int :=
  if a.handRank ≠ b.handRank then (a.handRank : Int) - (b.handRank : Int)
  else cmpHigh a.highCards b.highCards

/-- Stable insertion used to embed the JS (ES2019+, stable) showdown sort:
strongest hand first, ties in original (seat) order. -/
def insertHand (x : PlayerHand) : List PlayerHand → List PlayerHand
  | [] => [x]
  | y :: ys =>
      if 0 < phCompare y x then y :: insertHand x ys else x :: y :: ys

/-- Embeds the `playerHands.sort(...)` in `goToShowdown`. -/
def sortHands : List PlayerHand → List PlayerHand
  | [] => []
  | x :: xs => insertHand x (sortHands xs)

/-- Embeds `findBestHand(playerHands)` (a `reduce` keeping the earlier entry
on ties). -/
def findBestHand (playerHands : List PlayerHand) : Option PlayerHand :=
  playerHands.foldl (fun best ph =>
    match best with
    | none => some ph
    | some b => if 0 < phCompare ph b then some ph else some b) none

/-- Embeds `awards.set(seat, (awards.get(seat) || 0) + amt)`. -/
def awardsAdd (aw : List (Int × Int)) (seat : Int) (amt : Int) :
    List (Int × Int) :=
  if aw.any (fun q => q.1 == seat) then
    aw.map (fun q => if q.1 == seat then (q.1, q.2 + amt) else q)
  else aw ++ [(seat, amt)]

/-- Reads an awards map entry (`awards.get(seat) || 0`). -/
def awardsGet (aw : List (Int × Int)) (seat : Int) : Int :=
  match aw.find? (fun q => q.1 == seat) with
  | some q => q.2
  | none => 0

/-- Pays every listed winner the same `share` (tail of the winner
`forEach`). -/
def payList (r : Room) (aw : List (Int × Int)) (share : Int) :
    List PlayerHand → List (Int × Int) × Room
  | [] => (aw, r)
  | w :: rest =>
      let r1 := updatePlayer r w.sid
        (fun p => { p with bankroll := p.bankroll + share })
      payList r1 (awardsAdd aw w.seatIndex share) share rest

/-- Embeds the winner `forEach`: index 0 receives `share + remainder`, the
rest receive `share`. -/
def payWinners (r : Room) (aw : List (Int × Int)) (winners : List PlayerHand)
    (share rem : Int) : List (Int × Int) × Room :=
  match winners with
  | [] => (aw, r)
  | w :: rest =>
      let r1 := updatePlayer r w.sid
        (fun p => { p with bankroll := p.bankroll + (share + rem) })
      payList r1 (awardsAdd aw w.seatIndex (share + rem)) share rest

/-- Body of the `awardPots` loop for one pot layer. `Int.ediv`/`Int.emod`
equal the JS `Math.floor(a / n)` / `a % n` on the non-negative amounts and
positive winner counts arising here. -/
def distributePot (playerHands : List PlayerHand)
    (acc : List (Int × Int) × Room) (pot : SidePot) :
    List (Int × Int) × Room :=
  let eligibleHands :=
    playerHands.filter (fun ph => pot.eligibleSeats.contains ph.seatIndex)
  match findBestHand eligibleHands with
  | none => acc  -- no eligible hands: `continue`
  | some bestHand =>
    let potWinners := eligibleHands.filter (fun ph =>
      ph.handRank == bestHand.handRank && ph.highCards == bestHand.highCards)
    let share := pot.amount.ediv (potWinners.length : Int)
    let remainder := pot.amount.emod (potWinners.length : Int)
    payWinners acc.2 acc.1 potWinners share remainder

/-- Embeds `awardPots(playerHands, communityCards)` (the board argument is
unused in the source as well). -/
def awardPots (r : Room) (playerHands : List PlayerHand) :
    List (Int × Int) × Room :=
  (calculateSidePots r).foldl (distributePot playerHands) ([], r)

/-- Embeds the synchronous part of `awardPot(winner)` (everyone else folded):
whole pot to the winner, phase to SHOWDOWN. Snapshot and the auto-next-hand
timer are deferred/display-only. -/
def awardPot (r : Room) (winnerSid : Nat) : Room :=
  let potWon := r.pot
  let r1 := updatePlayer r winnerSid
    (fun p => { p with bankroll := p.bankroll + potWon })
  { r1 with pot := 0, phase := .showdown }

/-- Embeds `checkForHandEnd`. -/
def checkForHandEnd (r : Room) : Bool × Room :=
  match getActivePlayers r with
  | [e] => (true, awardPot r e.1)
  | _ => (false, r)

/-- Embeds the synchronous part of `goToShowdown` (snapshot building and the
auto-next-hand timer omitted; the second `calculateSidePots` call for the
snapshot is pure). -/
def goToShowdown (r : Room) : Room :=
  let r1 := { r with phase := .showdown }
  if (getActivePlayers r1).length = 0 then r1
  else
    let playerHands := sortHands (mkPlayerHands r1 r1.communityCards)
    let r2 := (awardPots r1 playerHands).2
    { r2 with pot := 0 }

/-- Embeds the per-pot body of `goToRunItTwiceShowdown`: the pot is halved,
the first half (plus the odd chip) resolved against board 1, the second half
against board 2. The UI awards map is dropped (`payWinners` is reused with an
empty map; the bankroll effect is identical). -/
def distributeRitPot (evalBoard1 evalBoard2 : List PlayerHand) (r : Room)
    (pot : SidePot) : Room :=
  let halfPot := pot.amount.ediv 2
  let remainder := pot.amount.emod 2  -- board 1 gets the remainder
  let eligible1 :=
    evalBoard1.filter (fun ph => pot.eligibleSeats.contains ph.seatIndex)
  let r1 :=
    match findBestHand eligible1 with
    | none => r
    | some best1 =>
      let winners1 := eligible1.filter (fun ph =>
        ph.handRank == best1.handRank && ph.highCards == best1.highCards)
      let share1 := (halfPot + remainder).ediv (winners1.length : Int)
      let rem1 := (halfPot + remainder).emod (winners1.length : Int)
      (payWinners r [] winners1 share1 rem1).2
  let eligible2 :=
    evalBoard2.filter (fun ph => pot.eligibleSeats.contains ph.seatIndex)
  match findBestHand eligible2 with
  | none => r1
  | some best2 =>
    let winners2 := eligible2.filter (fun ph =>
      ph.handRank == best2.handRank && ph.highCards == best2.highCards)
    let share2 := halfPot.ediv (winners2.length : Int)
    let rem2 := halfPot.emod (winners2.length : Int)
    (payWinners r1 [] winners2 share2 rem2).2

/-- Embeds the synchronous part of `goToRunItTwiceShowdown` (snapshot and
auto-next-hand timer omitted). -/
def goToRunItTwiceShowdown (r : Room) : Room :=
  let r1 := { r with phase := .showdown }
  if (getActivePlayers r1).length = 0 then r1
  else
    let sidePots := calculateSidePots r1
    let evalBoard1 := mkPlayerHands r1 r1.communityCards
    let evalBoard2 := mkPlayerHands r1 r1.secondBoard
    let r2 := sidePots.foldl (distributeRitPot evalBoard1 evalBoard2) r1
    { r2 with pot := 0 }

/-- Embeds the synchronous part of `offerRunItTwice` (the 15 s auto-finalize
timer is deferred). -/
def offerRunItTwice (r : Room) : Room :=
  { r with runItTwiceOffered := true,
           runItTwiceVotes := [],
           runItTwiceEligiblePlayers := (getActivePlayers r).map (fun e => e.1) }

/-- First-match vote lookup (embeds `runItTwiceVotes.get(socketId)`). -/
def votesGet (vs : List (Nat × Bool)) (sid : Nat) : Option Bool :=
  match vs.find? (fun q => q.1 == sid) with
  | some q => some q.2
  | none => none

/-- Embeds `Map.set` on the votes map. -/
def votesSet (vs : List (Nat × Bool)) (sid : Nat) (b : Bool) :
    List (Nat × Bool) :=
  if vs.any (fun q => q.1 == sid) then
    vs.map (fun q => if q.1 == sid then (q.1, b) else q)
  else vs ++ [(sid, b)]

/-- Embeds the synchronous part of `finalizeRunItTwiceVoting` (the 1 s
`advancePhase` continuation is deferred): run-it-twice is accepted exactly
when every eligible voter has a recorded `true` vote. -/
def finalizeRunItTwiceVoting (r : Room) : Room :=
  let allAccepted := r.runItTwiceEligiblePlayers.all
    (fun sid => votesGet r.runItTwiceVotes sid == some true)
  { r with runItTwiceOffered := false, runItTwiceAccepted := allAccepted }

/-- Embeds `voteRunItTwice(socketId, accept)`; `false` in the first component
is the error ack. -/
def voteRunItTwice (r : Room) (sid : Nat) (accept : Bool) : Bool × Room :=
  if !r.runItTwiceOffered then (false, r)
  else if !(r.runItTwiceEligiblePlayers.contains sid) then (false, r)
  else
    let votes := votesSet r.runItTwiceVotes sid accept
    let r1 := { r with runItTwiceVotes := votes }
    if votes.length = r1.runItTwiceEligiblePlayers.length then
      (true, finalizeRunItTwiceVoting r1)
    else (true, r1)

/-- Embeds `dealFlop` (the rigged-hand fixture branch is omitted; the phase
guard returns the unchanged room on failure). -/
def dealFlop (r : Room) : Room :=
  if r.phase ≠ .preFlop then r
  else
    let deckBurned := r.deck.drop 1
    let (dealt, remaining) := dealCards deckBurned 3
    let r1 := { r with deck := remaining, communityCards := dealt,
                       phase := .flop }
    if r1.runItTwiceAccepted then
      let deck2 := r1.deck.drop 1
      let (dealt2, rem2) := dealCards deck2 3
      { r1 with deck := rem2, secondBoard := dealt2 }
    else r1

/-- Embeds `dealTurn` (`communityCards.push(dealt[0])` is `++ dealt` on the
one-card deal). -/
def dealTurn (r : Room) : Room :=
  if r.phase ≠ .flop then r
  else
    let deckBurned := r.deck.drop 1
    let (dealt, remaining) := dealCards deckBurned 1
    let r1 := { r with deck := remaining,
                       communityCards := r.communityCards ++ dealt,
                       phase := .turn }
    if r1.runItTwiceAccepted then
      let deck2 := r1.deck.drop 1
      let (dealt2, rem2) := dealCards deck2 1
      { r1 with deck := rem2, secondBoard := r1.secondBoard ++ dealt2 }
    else r1

/-- Embeds `dealRiver` (the `riggedCommunityCards = null` reset concerns the
omitted fixture only). -/
def dealRiver (r : Room) : Room :=
  if r.phase ≠ .turn then r
  else
    let deckBurned := r.deck.drop 1
    let (dealt, remaining) := dealCards deckBurned 1
    let r1 := { r with deck := remaining,
                       communityCards := r.communityCards ++ dealt,
                       phase := .river }
    if r1.runItTwiceAccepted then
      let deck2 := r1.deck.drop 1
      let (dealt2, rem2) := dealCards deck2 1
      { r1 with deck := rem2, secondBoard := r1.secondBoard ++ dealt2 }
    else r1

/-- Tail of `advancePhase` after a street is dealt: when everyone is all-in
(or run-it-twice is live) the runout continues via a deferred timer;
otherwise the first actable seat clockwise from the dealer acts. -/
def afterStreet (r : Room) (allPlayersAllIn : Bool) : Room :=
  if allPlayersAllIn || r.runItTwiceAccepted then r
  else { r with currentTurn := findNextActivePlayer r r.dealerSeat }

/-- Part of `advancePhase` after the betting-round reset: possibly offer
run-it-twice, then deal the next street or go to showdown (the JS
`allPlayersAllIn` boolean is the parameter). -/
def advancePhaseBody (r : Room) (allPlayersAllIn : Bool) : Room :=
  if allPlayersAllIn && !r.runItTwiceOffered && !r.runItTwiceAccepted &&
      !(r.phase == Phase.river) then
    offerRunItTwice r
  else
    match r.phase with
    | .preFlop => afterStreet (dealFlop r) allPlayersAllIn
    | .flop => afterStreet (dealTurn r) allPlayersAllIn
    | .turn => afterStreet (dealRiver r) allPlayersAllIn
    | .river =>
        if r.runItTwiceAccepted then goToRunItTwiceShowdown r
        else goToShowdown r
    | _ => r

/-- Embeds the synchronous part of `advancePhase`: reset the betting round,
then `advancePhaseBody`. -/
def advancePhase (r : Room) : Room :=
  let r1 := ((getSeatedPlayers r).map (fun e => e.1)).foldl
    (fun acc sid => updatePlayer acc sid (fun p => { p with currentBet := 0 }))
    r
  let r2 := { r1 with currentBet := 0, minRaise := r1.bigBlind,
                      actedThisRound := ∅ }
  advancePhaseBody r2
    (decide ((getActingPlayers r2).length = 0) &&
     decide (2 ≤ (getActivePlayers r2).length))

/-- Loop of `advanceToNextPlayer`: test the current candidate seat, else step
clockwise, stopping after `maxPlayers` attempts or a full wrap. -/
def advanceLoop (r : Room) (startSeat : Option Int) : Int → Nat → Option Int
  | _, 0 => none
  | nextSeat, fuel + 1 =>
    match seatPlayer r nextSeat with
    | some p =>
        if !p.isFolded && !p.isAllIn then some nextSeat
        else
          let ns := findNextOccupiedSeat r nextSeat
          if some ns = startSeat then none
          else advanceLoop r startSeat ns fuel
    | none =>
        let ns := findNextOccupiedSeat r nextSeat
        if some ns = startSeat then none
        else advanceLoop r startSeat ns fuel

/-- Embeds `advanceToNextPlayer` (a `null` current turn coerces to `0` in the
JS seat arithmetic). Falls through to `advancePhase` when nobody can act. -/
def advanceToNextPlayer (r : Room) : Room :=
  let startSeat := r.currentTurn
  let first := findNextOccupiedSeat r (startSeat.getD 0)
  match advanceLoop r startSeat first r.maxPlayers with
  | some seat => { r with currentTurn := some seat }
  | none => advancePhase r

/-- Embeds `advanceGame`. -/
def advanceGame (r : Room) : Room :=
  if isBettingRoundComplete r then advancePhase r else advanceToNextPlayer r

/-- Error acks of `playerAction` (the source returns these strings on the
command reply; the interpolated min-raise message carries its amount). -/
inductive ActionError
  | notSeated        -- 'Not seated'
  | noBettingNow     -- 'No betting now'
  | notYourTurn      -- 'Not your turn'
  | cannotAct        -- 'Cannot act'
  | cannotCheck      -- 'Cannot check, must call or raise'
  | minimumRaiseIs (n : Int)
deriving DecidableEq, Repr

/-- Adds the acting seat to `actedThisRound` (source line after the switch). -/
def markActed (r : Room) (seat : Int) : Room :=
  { r with actedThisRound := insert seat r.actedThisRound }

/-- The four chip-moving mutations shared by the call / bet / raise / all-in
branches. -/
def commitChips (r : Room) (sid : Nat) (amt : Int) : Room :=
  let r1 := updatePlayer r sid (fun q =>
    { q with bankroll := q.bankroll - amt,
             currentBet := q.currentBet + amt,
             totalBetThisHand := q.totalBetThisHand + amt })
  { r1 with pot := r1.pot + amt }

/-- Shared body of the BET/RAISE cases (and, with `betAmount = bankroll`, the
raise bookkeeping of ALL_IN): min-raise guard, chip commit, then the
reopen-on-full-raise update. -/
def betRaiseBody (r : Room) (sid : Nat) (seat : Int) (p : Player)
    (toCall raiseAmount : Int) : Option ActionError × Room :=
  if raiseAmount < r.minRaise ∧ toCall + raiseAmount < p.bankroll then
    (some (.minimumRaiseIs r.minRaise), r)
  else
    let totalBet := toCall + raiseAmount
    let betAmount := min totalBet p.bankroll
    let r1 := commitChips r sid betAmount
    let newBet := p.currentBet + betAmount
    let r2 :=
      if r1.currentBet < newBet then
        let raiseBy := newBet - r1.currentBet
        let r2a :=
          if r1.minRaise ≤ raiseBy then
            { r1 with minRaise := raiseBy, actedThisRound := {seat} }
          else r1
        { r2a with currentBet := newBet, lastRaiser := some seat }
      else r1
    let r3 :=
      if p.bankroll - betAmount = 0 then
        updatePlayer r2 sid (fun q => { q with isAllIn := true })
      else r2
    (none, markActed r3 seat)

/-- Embeds `playerAction` validations plus the action switch plus the
`actedThisRound.add` (source lines 2455–2567), before `checkForHandEnd` and
`advanceGame`. -/
def playerActionCore (r : Room) (sid : Nat) (action : PAction)
    (amount : Int) : Option ActionError × Room :=
  match getPlayer r sid with
  | none => (some .notSeated, r)
  | some p =>
    match p.seatIndex with
    | none => (some .notSeated, r)
    | some seat =>
      if r.phase = .waiting ∨ r.phase = .showdown then (some .noBettingNow, r)
      else if r.currentTurn ≠ some seat then (some .notYourTurn, r)
      else if p.isFolded ∨ p.isAllIn then (some .cannotAct, r)
      else
        let toCall := r.currentBet - p.currentBet
        match action with
        | .fold =>
            (none, markActed
              (updatePlayer r sid (fun q => { q with isFolded := true })) seat)
        | .check =>
            if 0 < toCall then (some .cannotCheck, r)
            else (none, markActed r seat)
        | .call =>
            if toCall = 0 then (none, markActed r seat)  -- recorded as a check
            else
              let betAmount := min toCall p.bankroll
              let r1 := commitChips r sid betAmount
              let r2 :=
                if p.bankroll - betAmount = 0 then
                  updatePlayer r1 sid (fun q => { q with isAllIn := true })
                else r1
              (none, markActed r2 seat)
        | .bet => betRaiseBody r sid seat p toCall amount
        | .raise => betRaiseBody r sid seat p toCall amount
        | .allIn =>
            let betAmount := p.bankroll
            let r1 := commitChips r sid betAmount
            let r1a := updatePlayer r1 sid (fun q => { q with isAllIn := true })
            let newBet := p.currentBet + betAmount
            let r2 :=
              if r1a.currentBet < newBet then
                let raiseBy := newBet - r1a.currentBet
                let r2a :=
                  if r1a.minRaise ≤ raiseBy then
                    { r1a with minRaise := raiseBy, actedThisRound := {seat} }
                  else r1a
                { r2a with currentBet := newBet, lastRaiser := some seat }
              else r1a
            (none, markActed r2 seat)

/-- Embeds the whole of `playerAction`: validations and switch, then
`checkForHandEnd`, then `advanceGame`. -/
def playerAction (r : Room) (sid : Nat) (action : PAction) (amount : Int) :
    Option ActionError × Room :=
  match playerActionCore r sid action amount with
  | (some e, r1) => (some e, r1)
  | (none, r1) =>
    let (ended, r2) := checkForHandEnd r1
    if ended then (none, r2) else (none, advanceGame r2)

/-- Embeds `leaveSeat(socketId)`; `false` is the error ack. -/
def leaveSeat (r : Room) (sid : Nat) : Bool × Room :=
  match getPlayer r sid with
  | none => (false, r)
  | some p =>
    match p.seatIndex with
    | none => (false, r)
    | some seatIndex =>
      let r1 :=
        if r.phase ≠ .waiting ∧ 0 < p.totalBetThisHand ∧ ¬p.isFolded then
          updatePlayer r sid (fun q => { q with isFolded := true })
        else r
      let r2 := { r1 with seats := r1.seats.set seatIndex.toNat none }
      let r3 := updatePlayer r2 sid (fun q =>
        { q with seatIndex := none, cards := [], bankroll := 0 })
      let r4 :=
        if r3.currentTurn = some seatIndex then advanceToNextPlayer r3 else r3
      (true, r4)

/-- First loop of `startHand`: clear `waitingForNextHand` on every seated
player. -/
def clearWaitingFlags (r : Room) : Room :=
  (r.seats.filterMap id).foldl
    (fun acc sid =>
      updatePlayer acc sid (fun p => { p with waitingForNextHand := false }))
    r

/-- Per-hand room-state reset of `startHand` (the vestigial `sidePots := []`
write is omitted with the field). -/
def resetHandState (r : Room) (shuffled : List Card) : Room :=
  { r with deck := shuffled, communityCards := [], pot := 0,
           currentBet := 0, actedThisRound := ∅,
           handNumber := r.handNumber + 1 }

/-- Per-player reset loop of `startHand`. -/
def resetSeatedPlayers (r : Room) (sids : List Nat) : Room :=
  sids.foldl
    (fun acc sid => updatePlayer acc sid (fun p =>
      { p with cards := [], isFolded := false, isAllIn := false,
               currentBet := 0, totalBetThisHand := 0 }))
    r

/-- One step of the hole-card dealing loop. -/
def dealStep (acc : Room) (sid : Nat) : Room :=
  let dealt := dealCards acc.deck 2
  let acc1 := updatePlayer acc sid (fun p => { p with cards := dealt.1 })
  { acc1 with deck := dealt.2 }

/-- Hole-card dealing loop of `startHand` (normal branch; god-mode fixture
omitted). -/
def dealHoleCards (r : Room) (sids : List Nat) : Room :=
  sids.foldl dealStep r

/-- Embeds `startHand` with the shuffled deck supplied as a parameter (the
source draws it from `shuffleDeck(createDeck())`, a random permutation; every
theorem below quantifies over it). `false` is the too-few-players ack. -/
def startHand (r : Room) (shuffled : List Card) : Bool × Room :=
  let r1 := clearWaitingFlags r
  let seated := getSeatedPlayers r1
  if seated.length < 2 then (false, { r1 with isGameRunning := false })
  else
    let r3 := resetSeatedPlayers (resetHandState r1 shuffled)
      (seated.map (fun e => e.1))
    let dealer :=
      if r3.dealerSeat = -1 then findNextOccupiedSeat r3 (-1)
      else findNextOccupiedSeat r3 r3.dealerSeat
    let r4 := { r3 with dealerSeat := dealer }
    let sbbb :=
      if seated.length = 2 then
        (dealer, findNextOccupiedSeat r4 dealer)
      else
        let sb := findNextOccupiedSeat r4 dealer
        (sb, findNextOccupiedSeat r4 sb)
    let r5 := postBlind r4 sbbb.1 r4.smallBlind
    let r6 := postBlind r5 sbbb.2 r5.bigBlind
    let r7 := { r6 with currentBet := r6.bigBlind, minRaise := r6.bigBlind,
                        lastRaiser := some sbbb.2,
                        sbSeat := sbbb.1, bbSeat := sbbb.2 }
    let r9 := { dealHoleCards r7 (seated.map (fun e => e.1)) with
                phase := .preFlop }
    let r10 :=
      if seated.length = 2 then { r9 with currentTurn := some sbbb.1 }
      else { r9 with currentTurn := some (findNextOccupiedSeat r9 sbbb.2) }
    (true, r10)

/-- Sum of all stored bankrolls plus the pot. Winnings are credited directly
to bankrolls at award time, so this is the claim's
"bankrolls + pot + already-awarded winnings". -/
def chipSum (r : Room) : Int :=
  (r.players.map (fun q => q.2.bankroll)).sum + r.pot

/-! ## Concrete scenario used for claim C2

A three-handed hand (blinds 10/20) in which the big stack raises, the two
short stacks end up all-in for 21 chips each, and the big stack — having
committed 41 — open-folds on the river. `calculateSidePots` then caps every
layer at the highest non-folded contribution (21), so the 20 chips the folder
committed above that level belong to no layer and are destroyed when
`goToShowdown` clears the pot. -/

/-- Fresh seated player with the given bankroll and seat. -/
def mkSeated (bankroll : Int) (seat : Int) : Player :=
  { seatIndex := some seat, bankroll := bankroll, cards := [],
    isFolded := false, isAllIn := false, currentBet := 0,
    totalBetThisHand := 0, waitingForNextHand := false }

/-- A concrete shuffled deck (any ordering works; the award totals at
showdown do not depend on who wins). -/
def demoDeck : List Card :=
  [⟨.r2, .hearts⟩, ⟨.r3, .hearts⟩, ⟨.r4, .hearts⟩, ⟨.r5, .hearts⟩,
   ⟨.r6, .hearts⟩, ⟨.r7, .hearts⟩, ⟨.r8, .hearts⟩, ⟨.r9, .hearts⟩,
   ⟨.r10, .hearts⟩, ⟨.rJ, .hearts⟩, ⟨.rQ, .hearts⟩, ⟨.rK, .hearts⟩,
   ⟨.rA, .hearts⟩, ⟨.r2, .clubs⟩, ⟨.r3, .clubs⟩, ⟨.r4, .clubs⟩,
   ⟨.r5, .clubs⟩, ⟨.r6, .clubs⟩, ⟨.r7, .clubs⟩, ⟨.r8, .clubs⟩]

/-- Room before the hand: seats 0/1/2 hold 1000/21/21 chips. -/
def foldDemoRoom : Room :=
  { maxPlayers := 3, seats := [some 0, some 1, some 2],
    players := [(0, mkSeated 1000 0), (1, mkSeated 21 1), (2, mkSeated 21 2)],
    phase := .waiting, deck := [], communityCards := [], secondBoard := [],
    pot := 0, currentBet := 0, minRaise := 0, smallBlind := 10, bigBlind := 20,
    dealerSeat := -1, sbSeat := -1, bbSeat := -1, currentTurn := none,
    lastRaiser := none, actedThisRound := ∅, isGameRunning := true,
    isPaused := false, handNumber := 0, runItTwiceOffered := false,
    runItTwiceAccepted := false, runItTwiceVotes := [],
    runItTwiceEligiblePlayers := [] }

/-- The hand as dealt: dealer seat 0, small blind seat 1 (posts 10), big
blind seat 2 (posts 20). -/
def foldDemoStart : Room := (startHand foldDemoRoom demoDeck).2

/-- The legal command sequence: preflop limp around; on the flop seat 1 bets
its last chip (all-in), seat 2 calls all-in, seat 0 raises by 20; seat 0
checks the turn and open-folds the river (amount-to-call 0), sending the hand
to showdown. -/
def foldDemoActions : List (Nat × PAction × Int) :=
  [(0, .call, 0), (1, .call, 0), (2, .check, 0), (1, .bet, 1), (2, .call, 0),
   (0, .raise, 20), (0, .check, 0), (0, .fold, 0)]

/-- Applies a list of `playerAction` commands, conjoining the success acks. -/
def runActions (r : Room) : List (Nat × PAction × Int) → Bool × Room
  | [] => (true, r)
  | c :: rest =>
    let res := playerAction r c.1 c.2.1 c.2.2
    let tail := runActions res.2 rest
    (res.1 == none && tail.1, tail.2)

/-! ## Precondition failures of `playerAction` (claim C8) -/

/-- The precondition failures listed by the claim, phrased against the
validation chain of `playerAction`: sender not seated, phase outside the four
betting streets (i.e. WAITING or SHOWDOWN), not the sender's turn, sender
folded or all-in, a check while the amount to call is positive, or a
bet/raise whose increment is below the min-raise while the sender's bankroll
strictly exceeds the total commitment (the source's
`player.bankroll > toCall + raiseAmount`, i.e. the action would not be an
all-in). -/
def FailsPrecondition (r : Room) (sid : Nat) (a : PAction) (amount : Int) :
    Prop :=
  match getPlayer r sid with
  | none => True
  | some p =>
    p.seatIndex = none ∨
    r.phase = .waiting ∨ r.phase = .showdown ∨
    r.currentTurn ≠ p.seatIndex ∨
    p.isFolded = true ∨ p.isAllIn = true ∨
    (a = .check ∧ 0 < r.currentBet - p.currentBet) ∨
    ((a = .bet ∨ a = .raise) ∧ amount < r.minRaise ∧
      (r.currentBet - p.currentBet) + amount < p.bankroll)

instance (r : Room) (sid : Nat) (a : PAction) (amount : Int) :
    Decidable (FailsPrecondition r sid a amount) := by
  unfold FailsPrecondition
  cases getPlayer r sid <;> infer_instance

/-- Any listed precondition failure makes the `playerAction` switch exit
through an error return, which carries the original room. -/
theorem playerActionCore_precondition_atomic (r : Room) (sid : Nat)
    (a : PAction) (amount : Int) (h : FailsPrecondition r sid a amount) :
    (playerActionCore r sid a amount).1 ≠ none ∧
    (playerActionCore r sid a amount).2 = r := by
  unfold FailsPrecondition at h
  unfold playerActionCore
  cases hp : getPlayer r sid with
  | none => exact ⟨fun hc => Option.noConfusion hc, rfl⟩
  | some p =>
    rw [hp] at h
    dsimp only at h ⊢
    cases hs : p.seatIndex with
    | none => exact ⟨fun hc => Option.noConfusion hc, rfl⟩
    | some seat =>
      rw [hs] at h
      dsimp only
      by_cases hc1 : r.phase = Phase.waiting ∨ r.phase = Phase.showdown
      · rw [if_pos hc1]; exact ⟨fun hc => Option.noConfusion hc, rfl⟩
      · rw [if_neg hc1]
        by_cases hc2 : r.currentTurn ≠ some seat
        · rw [if_pos hc2]; exact ⟨fun hc => Option.noConfusion hc, rfl⟩
        · rw [if_neg hc2]
          by_cases hc3 : p.isFolded = true ∨ p.isAllIn = true
          · rw [if_pos hc3]; exact ⟨fun hc => Option.noConfusion hc, rfl⟩
          · rw [if_neg hc3]
            rcases h with h | h | h | h | h | h | h | h
            · exact Option.noConfusion h
            · exact absurd (Or.inl h) hc1
            · exact absurd (Or.inr h) hc1
            · exact absurd h hc2
            · exact absurd (Or.inl h) hc3
            · exact absurd (Or.inr h) hc3
            · obtain ⟨ha, hcall⟩ := h
              subst ha
              dsimp only
              rw [if_pos hcall]
              exact ⟨fun hc => Option.noConfusion hc, rfl⟩
            · obtain ⟨ha, hmin, hbank⟩ := h
              have hcond : amount < r.minRaise ∧
                  (r.currentBet - p.currentBet) + amount < p.bankroll :=
                ⟨hmin, hbank⟩
              rcases ha with ha | ha <;> subst ha <;>
              · dsimp only
                unfold betRaiseBody
                rw [if_pos hcond]
                exact ⟨fun hc => Option.noConfusion hc, rfl⟩

/-- C8. Precondition-error atomicity: a `playerAction` command meeting any of
the listed failing preconditions (sender not seated, phase not a betting
street, not the sender's turn, sender folded or all-in, check with a positive
amount to call, or a below-minimum raise the sender could more than cover) is
acked with an error and leaves the entire room state unchanged. -/
theorem playerAction_precondition_atomicity (r : Room) (sid : Nat)
    (a : PAction) (amount : Int) (h : FailsPrecondition r sid a amount) :
    (playerAction r sid a amount).1 ≠ none ∧
    (playerAction r sid a amount).2 = r := by
  obtain ⟨h1, h2⟩ := playerActionCore_precondition_atomic r sid a amount h
  unfold playerAction
  cases hres : playerActionCore r sid a amount with
  | mk e r1 =>
    rw [hres] at h1 h2
    cases e with
    | none => exact absurd rfl h1
    | some err =>
        dsimp only at h2 ⊢
        exact ⟨fun hc => Option.noConfusion hc, h2⟩

/-- Witness for C8: in the concrete dealt hand it is seat 0's turn, so a
check command from the player on seat 1 fails the turn precondition, is acked
with an error, and leaves the room unchanged. -/
theorem playerAction_precondition_atomicity_witness :
    FailsPrecondition foldDemoStart 1 PAction.check 0 ∧
    ((playerAction foldDemoStart 1 PAction.check 0).1 ≠ none ∧
     (playerAction foldDemoStart 1 PAction.check 0).2 = foldDemoStart) :=
  ⟨by decide,
   playerAction_precondition_atomicity foldDemoStart 1 PAction.check 0
     (by decide)⟩

/-! ## Payout accounting (claims C6, C7, C1)

`chipSum`-style accounting for the winner-payment loops; the hypotheses
(store keys distinct, winners drawn from stored players) hold in every
reachable room. -/

theorem storeSet_keys (ps : List (Nat × Player)) (sid : Nat)
    (f : Player → Player) :
    (storeSet ps sid f).map (fun q => q.1) = ps.map (fun q => q.1) := by
  induction ps with
  | nil => rfl
  | cons q t ih =>
    simp only [storeSet, List.map_cons] at ih ⊢
    by_cases h1 : q.1 = sid
    · rw [if_pos h1]
      exact congrArg (List.cons q.1) ih
    · rw [if_neg h1]
      exact congrArg (List.cons q.1) ih

theorem storeSet_not_mem (ps : List (Nat × Player)) (sid : Nat)
    (f : Player → Player) (h : sid ∉ ps.map (fun q => q.1)) :
    storeSet ps sid f = ps := by
  induction ps with
  | nil => rfl
  | cons q t ih =>
    simp only [List.map_cons, List.mem_cons] at h
    push_neg at h
    simp only [storeSet, List.map_cons]
    rw [if_neg (fun hc => h.1 hc.symm)]
    exact congrArg (List.cons q) (ih h.2)

/-- Sum of stored bankrolls. -/
def bankSum (ps : List (Nat × Player)) : Int :=
  (ps.map (fun q => q.2.bankroll)).sum

theorem bankSum_storeSet_add (ps : List (Nat × Player)) (sid : Nat) (a : Int)
    (hnd : (ps.map (fun q => q.1)).Nodup) (hmem : sid ∈ ps.map (fun q => q.1)) :
    bankSum (storeSet ps sid
      (fun p => { p with bankroll := p.bankroll + a })) = bankSum ps + a := by
  induction ps with
  | nil => exact absurd hmem (List.not_mem_nil sid)
  | cons q t ih =>
    simp only [List.map_cons, List.nodup_cons] at hnd
    simp only [List.map_cons, List.mem_cons] at hmem
    simp only [bankSum, storeSet, List.map_cons, List.sum_cons] at ih ⊢
    by_cases h1 : q.1 = sid
    · rw [if_pos h1]
      have ht : storeSet t sid
          (fun p => { p with bankroll := p.bankroll + a }) = t :=
        storeSet_not_mem t sid _ (h1 ▸ hnd.1)
      simp only [storeSet] at ht
      rw [ht]
      dsimp only
      ring
    · rw [if_neg h1]
      have hmem2 : sid ∈ t.map (fun q => q.1) :=
        hmem.resolve_left (fun hc => h1 hc.symm)
      rw [ih hnd.2 hmem2]
      ring

theorem payList_accounting (share : Int) :
    ∀ (ws : List PlayerHand) (r : Room) (aw : List (Int × Int)),
    (r.players.map (fun q => q.1)).Nodup →
    (∀ w ∈ ws, w.sid ∈ r.players.map (fun q => q.1)) →
    chipSum (payList r aw share ws).2 =
      chipSum r + share * ws.length
  | [], r, aw, _, _ => by simp [payList]
  | w :: rest, r, aw, hnd, hws => by
    have hw : w.sid ∈ r.players.map (fun q => q.1) :=
      hws w (List.mem_cons_self w rest)
    have hkeys : ((storeSet r.players w.sid
        (fun p => { p with bankroll := p.bankroll + share })).map
        (fun q => q.1)) = r.players.map (fun q => q.1) :=
      storeSet_keys r.players w.sid _
    have hrest : ∀ x ∈ rest, x.sid ∈ (storeSet r.players w.sid
        (fun p => { p with bankroll := p.bankroll + share })).map
        (fun q => q.1) := by
      intro x hx
      rw [hkeys]
      exact hws x (List.mem_cons_of_mem w hx)
    have ih := payList_accounting share rest
      (updatePlayer r w.sid (fun p => { p with bankroll := p.bankroll + share }))
      (awardsAdd aw w.seatIndex share) (hkeys ▸ hnd) hrest
    show chipSum (payList (updatePlayer r w.sid _) (awardsAdd aw w.seatIndex share) share rest).2 = _
    rw [ih]
    have hbank : chipSum (updatePlayer r w.sid
        (fun p => { p with bankroll := p.bankroll + share })) =
        chipSum r + share := by
      show bankSum (storeSet r.players w.sid
        (fun p => { p with bankroll := p.bankroll + share })) + r.pot = _
      rw [bankSum_storeSet_add r.players w.sid share hnd hw]
      show bankSum r.players + share + r.pot = bankSum r.players + r.pot + share
      ring
    rw [hbank]
    simp only [List.length_cons]
    push_cast
    ring

theorem payWinners_accounting (r : Room) (aw : List (Int × Int))
    (ws : List PlayerHand) (share rem : Int)
    (hnd : (r.players.map (fun q => q.1)).Nodup)
    (hws : ∀ w ∈ ws, w.sid ∈ r.players.map (fun q => q.1))
    (hne : ws ≠ []) :
    chipSum (payWinners r aw ws share rem).2 =
      chipSum r + (share * ws.length + rem) := by
  cases ws with
  | nil => exact absurd rfl hne
  | cons w rest =>
    have hw : w.sid ∈ r.players.map (fun q => q.1) :=
      hws w (List.mem_cons_self w rest)
    have hkeys : ((storeSet r.players w.sid
        (fun p => { p with bankroll := p.bankroll + (share + rem) })).map
        (fun q => q.1)) = r.players.map (fun q => q.1) :=
      storeSet_keys r.players w.sid _
    have hrest : ∀ x ∈ rest, x.sid ∈ (storeSet r.players w.sid
        (fun p => { p with bankroll := p.bankroll + (share + rem) })).map
        (fun q => q.1) := by
      intro x hx
      rw [hkeys]
      exact hws x (List.mem_cons_of_mem w hx)
    show chipSum (payList (updatePlayer r w.sid _)
      (awardsAdd aw w.seatIndex (share + rem)) share rest).2 = _
    rw [payList_accounting share rest _ _ (hkeys ▸ hnd) hrest]
    have hbank : chipSum (updatePlayer r w.sid
        (fun p => { p with bankroll := p.bankroll + (share + rem) })) =
        chipSum r + (share + rem) := by
      show bankSum (storeSet r.players w.sid
        (fun p => { p with bankroll := p.bankroll + (share + rem) })) + r.pot = _
      rw [bankSum_storeSet_add r.players w.sid (share + rem) hnd hw]
      show bankSum r.players + (share + rem) + r.pot =
        bankSum r.players + r.pot + (share + rem)
      ring
    rw [hbank]
    simp only [List.length_cons]
    push_cast
    ring

theorem findBestHand_mem :
    ∀ (l : List PlayerHand) (b : PlayerHand), findBestHand l = some b → b ∈ l := by
  have step : ∀ (l : List PlayerHand) (acc b : PlayerHand),
      l.foldl (fun best ph =>
        match best with
        | none => some ph
        | some b0 => if 0 < phCompare ph b0 then some ph else some b0)
        (some acc) = some b → b = acc ∨ b ∈ l := by
    intro l
    induction l with
    | nil => intro acc b h; exact Or.inl (Option.some.inj h).symm
    | cons x t ih =>
      intro acc b h
      simp only [List.foldl_cons] at h
      by_cases hc : 0 < phCompare x acc
      · rw [if_pos hc] at h
        rcases ih x b h with h2 | h2
        · exact Or.inr (h2 ▸ List.mem_cons_self x t)
        · exact Or.inr (List.mem_cons_of_mem x h2)
      · rw [if_neg hc] at h
        rcases ih acc b h with h2 | h2
        · exact Or.inl h2
        · exact Or.inr (List.mem_cons_of_mem x h2)
  intro l b h
  cases l with
  | nil => exact Option.noConfusion h
  | cons x t =>
    unfold findBestHand at h
    simp only [List.foldl_cons] at h
    rcases step t x b h with h2 | h2
    · exact h2 ▸ List.mem_cons_self x t
    · exact List.mem_cons_of_mem x h2

theorem tie_filter_ne_nil (l : List PlayerHand) (b : PlayerHand) (hb : b ∈ l) :
    l.filter (fun ph =>
      ph.handRank == b.handRank && ph.highCards == b.highCards) ≠ [] := by
  intro hc
  have : b ∈ l.filter (fun ph =>
      ph.handRank == b.handRank && ph.highCards == b.highCards) := by
    rw [List.mem_filter]
    exact ⟨hb, by simp⟩
  rw [hc] at this
  exact List.not_mem_nil b this

theorem payList_keys (share : Int) :
    ∀ (ws : List PlayerHand) (r : Room) (aw : List (Int × Int)),
    ((payList r aw share ws).2).players.map (fun q => q.1) =
      r.players.map (fun q => q.1)
  | [], _, _ => rfl
  | w :: rest, r, aw => by
    refine (payList_keys share rest _ _).trans ?_
    exact storeSet_keys r.players w.sid
      (fun p => { p with bankroll := p.bankroll + share })

theorem payWinners_keys (r : Room) (aw : List (Int × Int))
    (ws : List PlayerHand) (share rem : Int) :
    ((payWinners r aw ws share rem).2).players.map (fun q => q.1) =
      r.players.map (fun q => q.1) := by
  cases ws with
  | nil => rfl
  | cons w rest =>
    refine (payList_keys share rest _ _).trans ?_
    exact storeSet_keys r.players w.sid
      (fun p => { p with bankroll := p.bankroll + (share + rem) })

/-- Shorthand for the eligibility filter used at showdown. -/
def eligibleOf (pot : SidePot) (l : List PlayerHand) : List PlayerHand :=
  l.filter (fun ph => pot.eligibleSeats.contains ph.seatIndex)

/-- Shorthand for the exact-tie filter used to split a pot. -/
def tiedWith (b : PlayerHand) (l : List PlayerHand) : List PlayerHand :=
  l.filter (fun ph =>
    ph.handRank == b.handRank && ph.highCards == b.highCards)

/-! ## Frame lemmas (claim C10)

The synchronous advance chain (`advanceToNextPlayer` → `advancePhase` →
dealing/showdown) updates the player store only through keys read out of the
seat array, so it cannot touch the store entry of a player who holds no
seat. -/

/-- The socket id `sid` occupies no seat slot. -/
def sidUnseated (r : Room) (sid : Nat) : Prop :=
  sid ∉ r.seats.filterMap id

theorem storeGet_storeSet_ne (ps : List (Nat × Player)) (sid target : Nat)
    (f : Player → Player) (h : target ≠ sid) :
    storeGet (storeSet ps target f) sid = storeGet ps sid := by
  induction ps with
  | nil => rfl
  | cons q t ih =>
    obtain ⟨k, v⟩ := q
    show storeGet ((if k = target then (k, f v) else (k, v)) ::
      storeSet t target f) sid = storeGet ((k, v) :: t) sid
    by_cases h1 : k = target
    · have h2 : k ≠ sid := fun hc => h (h1.symm.trans hc)
      rw [if_pos h1]
      show (if k = sid then some (f v) else storeGet (storeSet t target f) sid)
        = if k = sid then some v else storeGet t sid
      rw [if_neg h2, if_neg h2]
      exact ih
    · rw [if_neg h1]
      show (if k = sid then some v else storeGet (storeSet t target f) sid)
        = if k = sid then some v else storeGet t sid
      by_cases h2 : k = sid
      · rw [if_pos h2, if_pos h2]
      · rw [if_neg h2, if_neg h2]
        exact ih

theorem getPlayer_updatePlayer_ne (r : Room) (target : Nat)
    (f : Player → Player) (sid : Nat) (h : target ≠ sid) :
    getPlayer (updatePlayer r target f) sid = getPlayer r sid :=
  storeGet_storeSet_ne r.players sid target f h

theorem seatEntries_sid_mem (r : Room) (e : Nat × Player)
    (h : e ∈ seatEntries r) : e.1 ∈ r.seats.filterMap id := by
  unfold seatEntries at h
  obtain ⟨os, hos, heq⟩ := List.mem_filterMap.mp h
  cases os with
  | none => exact Option.noConfusion heq
  | some s =>
    have heq2 : (getPlayer r s).map (fun p => (s, p)) = some e := heq
    cases hg : getPlayer r s with
    | none => rw [hg] at heq2; exact Option.noConfusion heq2
    | some p =>
      rw [hg] at heq2
      have heq3 : some ((s, p) : Nat × Player) = some e := heq2
      cases heq3
      exact List.mem_filterMap.mpr ⟨some s, hos, rfl⟩

theorem unseated_entry_ne (r : Room) (sid : Nat) (h : sidUnseated r sid)
    (e : Nat × Player) (he : e ∈ seatEntries r) : e.1 ≠ sid := by
  intro hc
  exact h (hc ▸ seatEntries_sid_mem r e he)

theorem foldUpdate_frame (f : Player → Player) (sid : Nat) :
    ∀ (l : List Nat) (r : Room), (∀ s ∈ l, s ≠ sid) →
    ((l.foldl (fun acc s => updatePlayer acc s f) r).seats = r.seats ∧
     getPlayer (l.foldl (fun acc s => updatePlayer acc s f) r) sid =
       getPlayer r sid)
  | [], _, _ => ⟨rfl, rfl⟩
  | s :: t, r, hl => by
    have hs : s ≠ sid := hl s (List.mem_cons_self s t)
    have ht : ∀ x ∈ t, x ≠ sid := fun x hx => hl x (List.mem_cons_of_mem s hx)
    obtain ⟨h1, h2⟩ := foldUpdate_frame f sid t (updatePlayer r s f) ht
    refine ⟨h1.trans rfl, h2.trans ?_⟩
    exact getPlayer_updatePlayer_ne r s f sid hs

theorem payList_frame (sid : Nat) (share : Int) :
    ∀ (ws : List PlayerHand) (r : Room) (aw : List (Int × Int)),
    (∀ w ∈ ws, w.sid ≠ sid) →
    ((payList r aw share ws).2.seats = r.seats ∧
     getPlayer (payList r aw share ws).2 sid = getPlayer r sid)
  | [], _, _, _ => ⟨rfl, rfl⟩
  | w :: rest, r, aw, hws => by
    have hw : w.sid ≠ sid := hws w (List.mem_cons_self w rest)
    have hrest : ∀ x ∈ rest, x.sid ≠ sid :=
      fun x hx => hws x (List.mem_cons_of_mem w hx)
    obtain ⟨h1, h2⟩ := payList_frame sid share rest
      (updatePlayer r w.sid fun p => { p with bankroll := p.bankroll + share })
      (awardsAdd aw w.seatIndex share) hrest
    exact ⟨h1, h2.trans (getPlayer_updatePlayer_ne r w.sid _ sid hw)⟩

theorem payWinners_frame (sid : Nat) (r : Room) (aw : List (Int × Int))
    (ws : List PlayerHand) (share rem : Int)
    (hws : ∀ w ∈ ws, w.sid ≠ sid) :
    (payWinners r aw ws share rem).2.seats = r.seats ∧
    getPlayer (payWinners r aw ws share rem).2 sid = getPlayer r sid := by
  cases ws with
  | nil => exact ⟨rfl, rfl⟩
  | cons w rest =>
    have hw : w.sid ≠ sid := hws w (List.mem_cons_self w rest)
    have hrest : ∀ x ∈ rest, x.sid ≠ sid :=
      fun x hx => hws x (List.mem_cons_of_mem w hx)
    obtain ⟨h1, h2⟩ := payList_frame sid share rest
      (updatePlayer r w.sid fun p =>
        { p with bankroll := p.bankroll + (share + rem) })
      (awardsAdd aw w.seatIndex (share + rem)) hrest
    exact ⟨h1, h2.trans (getPlayer_updatePlayer_ne r w.sid _ sid hw)⟩

theorem distributePot_frame (sid : Nat) (playerHands : List PlayerHand)
    (acc : List (Int × Int) × Room) (pot : SidePot)
    (hph : ∀ ph ∈ playerHands, ph.sid ≠ sid) :
    (distributePot playerHands acc pot).2.seats = acc.2.seats ∧
    getPlayer (distributePot playerHands acc pot).2 sid =
      getPlayer acc.2 sid := by
  unfold distributePot
  dsimp only
  cases hb : findBestHand
      (List.filter (fun ph => pot.eligibleSeats.contains ph.seatIndex)
        playerHands)
    with
  | none => exact ⟨rfl, rfl⟩
  | some bestHand =>
    dsimp only
    apply payWinners_frame
    intro w hw
    have h1 := List.mem_filter.mp hw
    have h2 := List.mem_filter.mp h1.1
    exact hph w h2.1

theorem awardPots_fold_frame (sid : Nat) (playerHands : List PlayerHand)
    (hph : ∀ ph ∈ playerHands, ph.sid ≠ sid) :
    ∀ (pots : List SidePot) (acc : List (Int × Int) × Room),
    ((pots.foldl (distributePot playerHands) acc).2.seats = acc.2.seats ∧
     getPlayer (pots.foldl (distributePot playerHands) acc).2 sid =
       getPlayer acc.2 sid)
  | [], _ => ⟨rfl, rfl⟩
  | pot :: rest, acc => by
    obtain ⟨h1, h2⟩ := awardPots_fold_frame sid playerHands hph rest
      (distributePot playerHands acc pot)
    obtain ⟨g1, g2⟩ := distributePot_frame sid playerHands acc pot hph
    exact ⟨h1.trans g1, h2.trans g2⟩

theorem mkPlayerHands_sid_mem (r : Room) (board : List Card)
    (ph : PlayerHand) (h : ph ∈ mkPlayerHands r board) :
    ph.sid ∈ r.seats.filterMap id := by
  unfold mkPlayerHands at h
  obtain ⟨e, he, heq⟩ := List.mem_map.mp h
  have he2 : e ∈ seatEntries r := (List.mem_filter.mp he).1
  have := seatEntries_sid_mem r e he2
  cases hev : evaluateHand e.2.cards board <;> rw [hev] at heq <;>
    (subst heq; exact this)

theorem insertHand_mem (ph x : PlayerHand) :
    ∀ l : List PlayerHand, ph ∈ insertHand x l → ph = x ∨ ph ∈ l
  | [], h => by
      unfold insertHand at h
      rcases List.mem_singleton.mp h with h1
      exact Or.inl h1
  | y :: ys, h => by
      unfold insertHand at h
      split_ifs at h
      · rcases List.mem_cons.mp h with h1 | h1
        · exact Or.inr (List.mem_cons.mpr (Or.inl h1))
        · rcases insertHand_mem ph x ys h1 with h2 | h2
          · exact Or.inl h2
          · exact Or.inr (List.mem_cons.mpr (Or.inr h2))
      · rcases List.mem_cons.mp h with h1 | h1
        · exact Or.inl h1
        · exact Or.inr h1

theorem sortHands_mem (ph : PlayerHand) :
    ∀ l : List PlayerHand, ph ∈ sortHands l → ph ∈ l
  | [], h => h
  | x :: xs, h => by
      unfold sortHands at h
      rcases insertHand_mem ph x (sortHands xs) h with h1 | h1
      · exact h1 ▸ List.mem_cons_self x xs
      · exact List.mem_cons.mpr (Or.inr (sortHands_mem ph xs h1))

theorem distributeRitPot_frame (sid : Nat) (e1 e2 : List PlayerHand)
    (r : Room) (pot : SidePot)
    (h1 : ∀ ph ∈ e1, ph.sid ≠ sid) (h2 : ∀ ph ∈ e2, ph.sid ≠ sid) :
    (distributeRitPot e1 e2 r pot).seats = r.seats ∧
    getPlayer (distributeRitPot e1 e2 r pot) sid = getPlayer r sid := by
  have winnersOK : ∀ (l : List PlayerHand) (hl : ∀ ph ∈ l, ph.sid ≠ sid)
      (best : PlayerHand),
      ∀ w ∈ l.filter (fun ph =>
        ph.handRank == best.handRank && ph.highCards == best.highCards),
      w.sid ≠ sid := by
    intro l hl best w hw
    exact hl w (List.mem_filter.mp hw).1
  have el1 : ∀ w ∈ e1.filter (fun ph =>
      pot.eligibleSeats.contains ph.seatIndex), w.sid ≠ sid :=
    fun w hw => h1 w (List.mem_filter.mp hw).1
  have el2 : ∀ w ∈ e2.filter (fun ph =>
      pot.eligibleSeats.contains ph.seatIndex), w.sid ≠ sid :=
    fun w hw => h2 w (List.mem_filter.mp hw).1
  unfold distributeRitPot
  dsimp only
  cases hb1 : findBestHand
      (List.filter (fun ph => pot.eligibleSeats.contains ph.seatIndex) e1) with
  | none =>
    dsimp only
    cases hb2 : findBestHand
        (List.filter (fun ph => pot.eligibleSeats.contains ph.seatIndex) e2)
      with
    | none => exact ⟨rfl, rfl⟩
    | some best2 =>
      dsimp only
      exact payWinners_frame sid r [] _ _ _ (winnersOK _ el2 best2)
  | some best1 =>
    dsimp only
    obtain ⟨g1, g2⟩ :=
      payWinners_frame sid r [] _ _ _ (winnersOK _ el1 best1)
    cases hb2 : findBestHand
        (List.filter (fun ph => pot.eligibleSeats.contains ph.seatIndex) e2)
      with
    | none => exact ⟨g1, g2⟩
    | some best2 =>
      dsimp only
      obtain ⟨k1, k2⟩ :=
        payWinners_frame sid _ [] _ _ _ (winnersOK _ el2 best2)
      exact ⟨k1.trans g1, k2.trans g2⟩

theorem ritFold_frame (sid : Nat) (e1 e2 : List PlayerHand)
    (h1 : ∀ ph ∈ e1, ph.sid ≠ sid) (h2 : ∀ ph ∈ e2, ph.sid ≠ sid) :
    ∀ (pots : List SidePot) (r : Room),
    ((pots.foldl (distributeRitPot e1 e2) r).seats = r.seats ∧
     getPlayer (pots.foldl (distributeRitPot e1 e2) r) sid = getPlayer r sid)
  | [], _ => ⟨rfl, rfl⟩
  | pot :: rest, r => by
      obtain ⟨g1, g2⟩ := ritFold_frame sid e1 e2 h1 h2 rest
        (distributeRitPot e1 e2 r pot)
      obtain ⟨k1, k2⟩ := distributeRitPot_frame sid e1 e2 r pot h1 h2
      exact ⟨g1.trans k1, g2.trans k2⟩

theorem goToShowdown_frame (r : Room) (sid : Nat) (h : sidUnseated r sid) :
    (goToShowdown r).seats = r.seats ∧
    getPlayer (goToShowdown r) sid = getPlayer r sid := by
  unfold goToShowdown
  dsimp only
  split_ifs with h0
  · exact ⟨rfl, rfl⟩
  · set r1 : Room := { r with phase := Phase.showdown } with hr1
    have hph : ∀ ph ∈ sortHands (mkPlayerHands r1 r1.communityCards),
        ph.sid ≠ sid := by
      intro ph hmem
      have hperm : ∀ ph2 ∈ mkPlayerHands r1 r1.communityCards,
          ph2.sid ≠ sid := by
        intro ph2 h2
        intro hc
        exact h (hc ▸ mkPlayerHands_sid_mem r1 _ ph2 h2)
      exact hperm ph (sortHands_mem ph _ hmem)
    obtain ⟨h1, h2⟩ := awardPots_fold_frame sid _ hph (calculateSidePots r1)
      ([], r1)
    exact ⟨h1, h2⟩

theorem goToRunItTwiceShowdown_frame (r : Room) (sid : Nat)
    (h : sidUnseated r sid) :
    (goToRunItTwiceShowdown r).seats = r.seats ∧
    getPlayer (goToRunItTwiceShowdown r) sid = getPlayer r sid := by
  unfold goToRunItTwiceShowdown
  dsimp only
  split_ifs with h0
  · exact ⟨rfl, rfl⟩
  · set r1 : Room := { r with phase := Phase.showdown } with hr1
    have hph1 : ∀ ph ∈ mkPlayerHands r1 r1.communityCards, ph.sid ≠ sid :=
      fun ph h2 hc => h (hc ▸ mkPlayerHands_sid_mem r1 _ ph h2)
    have hph2 : ∀ ph ∈ mkPlayerHands r1 r1.secondBoard, ph.sid ≠ sid :=
      fun ph h2 hc => h (hc ▸ mkPlayerHands_sid_mem r1 _ ph h2)
    obtain ⟨h1, h2⟩ := ritFold_frame sid _ _ hph1 hph2
      (calculateSidePots r1) r1
    exact ⟨h1, h2⟩

theorem getPlayer_congr (r1 r2 : Room) (sid : Nat)
    (h : r1.players = r2.players) : getPlayer r1 sid = getPlayer r2 sid := by
  unfold getPlayer
  rw [h]

theorem dealFlop_frame (r : Room) :
    (dealFlop r).seats = r.seats ∧ (dealFlop r).players = r.players := by
  unfold dealFlop
  dsimp only
  split_ifs <;> exact ⟨rfl, rfl⟩

theorem dealTurn_frame (r : Room) :
    (dealTurn r).seats = r.seats ∧ (dealTurn r).players = r.players := by
  unfold dealTurn
  dsimp only
  split_ifs <;> exact ⟨rfl, rfl⟩

theorem dealRiver_frame (r : Room) :
    (dealRiver r).seats = r.seats ∧ (dealRiver r).players = r.players := by
  unfold dealRiver
  dsimp only
  split_ifs <;> exact ⟨rfl, rfl⟩

theorem afterStreet_frame (r : Room) (b : Bool) :
    (afterStreet r b).seats = r.seats ∧
    (afterStreet r b).players = r.players := by
  unfold afterStreet
  split_ifs <;> exact ⟨rfl, rfl⟩

/-- The per-player fold in `advancePhase` (and in `startHand`) is a pure
store transformation. -/
theorem foldUpdate_eq (f : Player → Player) :
    ∀ (l : List Nat) (r : Room),
    (l.foldl (fun acc s => updatePlayer acc s f) r) =
      { r with players := l.foldl (fun acc s => storeSet acc s f) r.players }
  | [], _ => rfl
  | s :: t, r => by
      show (t.foldl (fun acc s => updatePlayer acc s f) (updatePlayer r s f)) = _
      rw [foldUpdate_eq f t]
      rfl

theorem foldStoreSet_ne (f : Player → Player) (sid : Nat) :
    ∀ (l : List Nat) (ps : List (Nat × Player)), (∀ s ∈ l, s ≠ sid) →
    storeGet (l.foldl (fun acc s => storeSet acc s f) ps) sid = storeGet ps sid
  | [], _, _ => rfl
  | s :: t, ps, hl => by
      have hs : s ≠ sid := hl s (List.mem_cons_self s t)
      have ht : ∀ x ∈ t, x ≠ sid :=
        fun x hx => hl x (List.mem_cons_of_mem s hx)
      exact (foldStoreSet_ne f sid t (storeSet ps s f) ht).trans
        (storeGet_storeSet_ne ps sid s f hs)

theorem advancePhaseBody_frame (r : Room) (b : Bool) (sid : Nat)
    (h : sidUnseated r sid) :
    (advancePhaseBody r b).seats = r.seats ∧
    getPlayer (advancePhaseBody r b) sid = getPlayer r sid := by
  unfold advancePhaseBody
  by_cases hc : (b && !r.runItTwiceOffered && !r.runItTwiceAccepted &&
      !(r.phase == Phase.river)) = true
  · rw [if_pos hc]
    exact ⟨rfl, rfl⟩
  · rw [if_neg hc]
    cases hph : r.phase <;> dsimp only
    · exact ⟨rfl, rfl⟩
    · obtain ⟨d1, d2⟩ := dealFlop_frame r
      obtain ⟨a1, a2⟩ := afterStreet_frame (dealFlop r) b
      exact ⟨a1.trans d1, (getPlayer_congr _ _ sid a2).trans
        (getPlayer_congr _ _ sid d2)⟩
    · obtain ⟨d1, d2⟩ := dealTurn_frame r
      obtain ⟨a1, a2⟩ := afterStreet_frame (dealTurn r) b
      exact ⟨a1.trans d1, (getPlayer_congr _ _ sid a2).trans
        (getPlayer_congr _ _ sid d2)⟩
    · obtain ⟨d1, d2⟩ := dealRiver_frame r
      obtain ⟨a1, a2⟩ := afterStreet_frame (dealRiver r) b
      exact ⟨a1.trans d1, (getPlayer_congr _ _ sid a2).trans
        (getPlayer_congr _ _ sid d2)⟩
    · by_cases hrit : r.runItTwiceAccepted = true
      · rw [if_pos hrit]
        exact goToRunItTwiceShowdown_frame r sid h
      · rw [if_neg hrit]
        exact goToShowdown_frame r sid h
    · exact ⟨rfl, rfl⟩

theorem advancePhase_frame (r : Room) (sid : Nat) (h : sidUnseated r sid) :
    (advancePhase r).seats = r.seats ∧
    getPlayer (advancePhase r) sid = getPlayer r sid := by
  have hl : ∀ s ∈ (getSeatedPlayers r).map (fun e => e.1), s ≠ sid := by
    intro s hs
    obtain ⟨e, he, heq⟩ := List.mem_map.mp hs
    subst heq
    exact unseated_entry_ne r sid h e (List.mem_filter.mp he).1
  have hget : storeGet (((getSeatedPlayers r).map (fun e => e.1)).foldl
      (fun acc s => storeSet acc s (fun p => { p with currentBet := 0 }))
      r.players) sid = storeGet r.players sid :=
    foldStoreSet_ne _ sid _ r.players hl
  unfold advancePhase
  rw [foldUpdate_eq]
  dsimp only
  refine ⟨(advancePhaseBody_frame _ _ sid ?hu1).1,
    ((advancePhaseBody_frame _ _ sid ?hu2).2).trans hget⟩
  case hu1 => exact h
  case hu2 => exact h

theorem advanceToNextPlayer_frame (r : Room) (sid : Nat)
    (h : sidUnseated r sid) :
    (advanceToNextPlayer r).seats = r.seats ∧
    getPlayer (advanceToNextPlayer r) sid = getPlayer r sid := by
  unfold advanceToNextPlayer
  dsimp only
  cases advanceLoop r r.currentTurn
      (findNextOccupiedSeat r (r.currentTurn.getD 0)) r.maxPlayers with
  | some seat => exact ⟨rfl, rfl⟩
  | none => exact advancePhase_frame r sid h

theorem storeGet_storeSet_self :
    ∀ (ps : List (Nat × Player)) (sid : Nat) (f : Player → Player),
    storeGet (storeSet ps sid f) sid = (storeGet ps sid).map f
  | [], _, _ => rfl
  | (k, v) :: t, sid, f => by
      show storeGet ((if k = sid then (k, f v) else (k, v)) ::
        storeSet t sid f) sid = ((if k = sid then some v else storeGet t sid)).map f
      by_cases h1 : k = sid
      · rw [if_pos h1, if_pos h1]
        show (if k = sid then some (f v) else storeGet (storeSet t sid f) sid)
          = (some v).map f
        rw [if_pos h1]
        rfl
      · rw [if_neg h1, if_neg h1]
        show (if k = sid then some v else storeGet (storeSet t sid f) sid)
          = (storeGet t sid).map f
        rw [if_neg h1]
        exact storeGet_storeSet_self t sid f

theorem set_getD_none :
    ∀ (l : List (Option Nat)) (n : Nat), (l.set n none).getD n none = none
  | [], _ => rfl
  | _ :: _, 0 => rfl
  | _ :: t, n + 1 => set_getD_none t n

end SevenDeuce

namespace SevenDeuce

/-- C2. Chip conservation fails on the code: starting from a hand whose
bankrolls-plus-pot total 1042 chips, the eight legal commands of
`foldDemoActions` (every ack succeeds) drive the hand to showdown with only
1022 chips remaining — the 20 chips the river folder had committed above the
highest non-folded contribution are in no side-pot layer and vanish when the
pot is cleared. -/
theorem chip_conservation_fails_on_fold_over_allins :
    (runActions foldDemoStart foldDemoActions).1 = true ∧
    chipSum foldDemoStart = 1042 ∧
    chipSum (runActions foldDemoStart foldDemoActions).2 = 1022 ∧
    (runActions foldDemoStart foldDemoActions).2.phase = Phase.showdown := by
  decide

/-- C10. A successful `leaveSeat` vacates the seat slot and clears the
player's cards, sets their bankroll to 0 (remaining chips are forfeited, not
returned), and — when the hand is live, the player has chips committed and is
not yet folded — marks the player folded, so their committed chips stay in
the pot. The hypothesis `honce` says the player holds no second seat slot
(always true in reachable rooms). -/
theorem leaveSeat_forfeits (r : Room) (sid : Nat) (p : Player) (seat : Int)
    (hp : getPlayer r sid = some p) (hs : p.seatIndex = some seat)
    (honce : sid ∉ (r.seats.set seat.toNat none).filterMap id) :
    (leaveSeat r sid).1 = true ∧
    (leaveSeat r sid).2.seats.getD seat.toNat none = none ∧
    ∃ q : Player, getPlayer (leaveSeat r sid).2 sid = some q ∧
      q.cards = [] ∧ q.bankroll = 0 ∧ q.seatIndex = none ∧
      (r.phase ≠ Phase.waiting → 0 < p.totalBetThisHand →
        p.isFolded = false → q.isFolded = true) := by
  have hp2 : storeGet r.players sid = some p := hp
  unfold leaveSeat
  rw [hp]
  dsimp only
  rw [hs]
  dsimp only
  by_cases hcond : r.phase ≠ Phase.waiting ∧ 0 < p.totalBetThisHand ∧
      ¬p.isFolded = true
  · rw [if_pos hcond]
    dsimp only [updatePlayer]
    split_ifs with hturn
    · refine ⟨rfl, ?_, ?_⟩
      · refine Eq.trans (congrArg (fun l => l.getD seat.toNat none)
          (advanceToNextPlayer_frame _ sid ?_).1) ?_
        · exact honce
        · exact set_getD_none r.seats seat.toNat
      · refine ⟨{ p with seatIndex := none, cards := [], bankroll := 0, isFolded := true },
          Eq.trans (advanceToNextPlayer_frame _ sid ?_).2 ?_,
          rfl, rfl, rfl, fun _ _ _ => rfl⟩
        · exact honce
        · show storeGet (storeSet (storeSet r.players sid (fun q => { q with isFolded := true })) sid (fun q => { q with seatIndex := none, cards := [], bankroll := 0 })) sid = some _
          rw [storeGet_storeSet_self, storeGet_storeSet_self, hp2]
          rfl
    · refine ⟨rfl, set_getD_none r.seats seat.toNat, ?_⟩
      refine ⟨{ p with seatIndex := none, cards := [], bankroll := 0, isFolded := true },
        ?_, rfl, rfl, rfl, fun _ _ _ => rfl⟩
      show storeGet (storeSet (storeSet r.players sid (fun q => { q with isFolded := true })) sid (fun q => { q with seatIndex := none, cards := [], bankroll := 0 })) sid = some _
      rw [storeGet_storeSet_self, storeGet_storeSet_self, hp2]
      rfl
  · rw [if_neg hcond]
    dsimp only [updatePlayer]
    split_ifs with hturn
    · refine ⟨rfl, ?_, ?_⟩
      · refine Eq.trans (congrArg (fun l => l.getD seat.toNat none)
          (advanceToNextPlayer_frame _ sid ?_).1) ?_
        · exact honce
        · exact set_getD_none r.seats seat.toNat
      · refine ⟨{ p with seatIndex := none, cards := [], bankroll := 0 },
          Eq.trans (advanceToNextPlayer_frame _ sid ?_).2 ?_,
          rfl, rfl, rfl,
          fun h1 h2 h3 =>
            absurd ⟨h1, h2, fun hc => Bool.noConfusion (h3 ▸ hc)⟩ hcond⟩
        · exact honce
        · show storeGet (storeSet r.players sid (fun q => { q with seatIndex := none, cards := [], bankroll := 0 })) sid = some _
          rw [storeGet_storeSet_self, hp2]
          rfl
    · refine ⟨rfl, set_getD_none r.seats seat.toNat, ?_⟩
      refine ⟨{ p with seatIndex := none, cards := [], bankroll := 0 }, ?_,
        rfl, rfl, rfl,
        fun h1 h2 h3 =>
          absurd ⟨h1, h2, fun hc => Bool.noConfusion (h3 ▸ hc)⟩ hcond⟩
      show storeGet (storeSet r.players sid (fun q => { q with seatIndex := none, cards := [], bankroll := 0 })) sid = some _
      rw [storeGet_storeSet_self, hp2]
      rfl

/-! ## Structure of `startHand` (claims C4, C5) -/

theorem clearWaitingFlags_eq (r : Room) :
    clearWaitingFlags r = { r with players := (r.seats.filterMap id).foldl (fun acc s => storeSet acc s (fun p => { p with waitingForNextHand := false })) r.players } :=
  foldUpdate_eq _ _ _

theorem resetSeatedPlayers_eq (r : Room) (sids : List Nat) :
    resetSeatedPlayers r sids = { r with players := sids.foldl (fun acc s => storeSet acc s (fun p => { p with cards := [], isFolded := false, isAllIn := false, currentBet := 0, totalBetThisHand := 0 })) r.players } :=
  foldUpdate_eq _ _ _

theorem dealHoleCards_shape :
    ∀ (sids : List Nat) (r : Room), ∃ ps dk,
      dealHoleCards r sids = { r with players := ps, deck := dk }
  | [], r => ⟨r.players, r.deck, rfl⟩
  | s :: t, r => by
      obtain ⟨ps, dk, h⟩ := dealHoleCards_shape t (dealStep r s)
      refine ⟨ps, dk, ?_⟩
      show dealHoleCards (dealStep r s) t = _
      rw [h]
      rfl

theorem dealHoleCards_acted (r : Room) (sids : List Nat) :
    (dealHoleCards r sids).actedThisRound = r.actedThisRound := by
  obtain ⟨ps, dk, h⟩ := dealHoleCards_shape sids r
  rw [h]

theorem dealHoleCards_lastRaiser (r : Room) (sids : List Nat) :
    (dealHoleCards r sids).lastRaiser = r.lastRaiser := by
  obtain ⟨ps, dk, h⟩ := dealHoleCards_shape sids r
  rw [h]

theorem dealHoleCards_bbSeat (r : Room) (sids : List Nat) :
    (dealHoleCards r sids).bbSeat = r.bbSeat := by
  obtain ⟨ps, dk, h⟩ := dealHoleCards_shape sids r
  rw [h]

theorem dealHoleCards_sbSeat (r : Room) (sids : List Nat) :
    (dealHoleCards r sids).sbSeat = r.sbSeat := by
  obtain ⟨ps, dk, h⟩ := dealHoleCards_shape sids r
  rw [h]

theorem dealHoleCards_dealerSeat (r : Room) (sids : List Nat) :
    (dealHoleCards r sids).dealerSeat = r.dealerSeat := by
  obtain ⟨ps, dk, h⟩ := dealHoleCards_shape sids r
  rw [h]

theorem dealHoleCards_seats (r : Room) (sids : List Nat) :
    (dealHoleCards r sids).seats = r.seats := by
  obtain ⟨ps, dk, h⟩ := dealHoleCards_shape sids r
  rw [h]

theorem dealHoleCards_maxPlayers (r : Room) (sids : List Nat) :
    (dealHoleCards r sids).maxPlayers = r.maxPlayers := by
  obtain ⟨ps, dk, h⟩ := dealHoleCards_shape sids r
  rw [h]

theorem postBlind_shape (r : Room) (i amt : Int) :
    ∃ ps pot, postBlind r i amt = { r with players := ps, pot := pot } := by
  unfold postBlind
  cases seatSid r i with
  | none => exact ⟨r.players, r.pot, rfl⟩
  | some sid =>
    dsimp only
    cases getPlayer r sid with
    | none => exact ⟨r.players, r.pot, rfl⟩
    | some p =>
      dsimp only [updatePlayer]
      exact ⟨_, _, rfl⟩

theorem postBlind_acted (r : Room) (i amt : Int) :
    (postBlind r i amt).actedThisRound = r.actedThisRound := by
  obtain ⟨ps, pot, h⟩ := postBlind_shape r i amt
  rw [h]

theorem postBlind_seats (r : Room) (i amt : Int) :
    (postBlind r i amt).seats = r.seats := by
  obtain ⟨ps, pot, h⟩ := postBlind_shape r i amt
  rw [h]

theorem postBlind_maxPlayers (r : Room) (i amt : Int) :
    (postBlind r i amt).maxPlayers = r.maxPlayers := by
  obtain ⟨ps, pot, h⟩ := postBlind_shape r i amt
  rw [h]

theorem postBlind_smallBlind (r : Room) (i amt : Int) :
    (postBlind r i amt).smallBlind = r.smallBlind := by
  obtain ⟨ps, pot, h⟩ := postBlind_shape r i amt
  rw [h]

theorem postBlind_bigBlind (r : Room) (i amt : Int) :
    (postBlind r i amt).bigBlind = r.bigBlind := by
  obtain ⟨ps, pot, h⟩ := postBlind_shape r i amt
  rw [h]

theorem postBlind_dealerSeat (r : Room) (i amt : Int) :
    (postBlind r i amt).dealerSeat = r.dealerSeat := by
  obtain ⟨ps, pot, h⟩ := postBlind_shape r i amt
  rw [h]

/-! ## Min-raise reopen rule (claim C3) -/

/-- Reopen behaviour of the shared BET/RAISE body when the action goes over
the current bet: a short raise (raise-by below min-raise) keeps min-raise and
merely adds the actor to the acted set while still updating the current bet;
a full raise resets the acted set to the raiser alone, sets min-raise to
raise-by and makes the raiser the last aggressor. -/
theorem betRaiseBody_reopen (r : Room) (sid : Nat) (seat : Int) (p : Player)
    (amount : Int)
    (hnoerr : ¬(amount < r.minRaise ∧
      (r.currentBet - p.currentBet) + amount < p.bankroll))
    (hgt : r.currentBet <
      p.currentBet + min ((r.currentBet - p.currentBet) + amount) p.bankroll) :
    (betRaiseBody r sid seat p (r.currentBet - p.currentBet) amount).1 =
      none ∧
    ((p.currentBet + min ((r.currentBet - p.currentBet) + amount) p.bankroll)
        - r.currentBet < r.minRaise →
      (betRaiseBody r sid seat p (r.currentBet - p.currentBet)
          amount).2.actedThisRound = insert seat r.actedThisRound ∧
      (betRaiseBody r sid seat p (r.currentBet - p.currentBet)
          amount).2.minRaise = r.minRaise ∧
      (betRaiseBody r sid seat p (r.currentBet - p.currentBet)
          amount).2.currentBet =
        p.currentBet +
          min ((r.currentBet - p.currentBet) + amount) p.bankroll) ∧
    (r.minRaise ≤
        (p.currentBet + min ((r.currentBet - p.currentBet) + amount)
          p.bankroll) - r.currentBet →
      (betRaiseBody r sid seat p (r.currentBet - p.currentBet)
          amount).2.actedThisRound = {seat} ∧
      (betRaiseBody r sid seat p (r.currentBet - p.currentBet)
          amount).2.minRaise =
        (p.currentBet + min ((r.currentBet - p.currentBet) + amount)
          p.bankroll) - r.currentBet ∧
      (betRaiseBody r sid seat p (r.currentBet - p.currentBet)
          amount).2.currentBet =
        p.currentBet +
          min ((r.currentBet - p.currentBet) + amount) p.bankroll ∧
      (betRaiseBody r sid seat p (r.currentBet - p.currentBet)
          amount).2.lastRaiser = some seat) := by
  unfold betRaiseBody
  rw [if_neg hnoerr]
  dsimp only [commitChips, updatePlayer]
  rw [if_pos hgt]
  by_cases hfull : r.minRaise ≤
      (p.currentBet + min ((r.currentBet - p.currentBet) + amount)
        p.bankroll) - r.currentBet
  · rw [if_pos hfull]
    dsimp only [markActed]
    split_ifs with hbk
    · exact ⟨rfl, fun hshort => absurd hfull (not_le.mpr hshort),
        fun _ => ⟨Finset.insert_idem seat ∅, rfl, rfl, rfl⟩⟩
    · exact ⟨rfl, fun hshort => absurd hfull (not_le.mpr hshort),
        fun _ => ⟨Finset.insert_idem seat ∅, rfl, rfl, rfl⟩⟩
  · rw [if_neg hfull]
    dsimp only [markActed]
    split_ifs with hbk
    · exact ⟨rfl, fun _ => ⟨rfl, rfl, rfl⟩, fun hf => absurd hf hfull⟩
    · exact ⟨rfl, fun _ => ⟨rfl, rfl, rfl⟩, fun hf => absurd hf hfull⟩

/-- C3. Min-raise reopen rule, for every bet, raise or all-in `playerAction`
command that passes validation and takes the per-round bet above the current
bet: letting bet-amount be the committed chips (the full bankroll for an
all-in, `min(to-call + amount, bankroll)` otherwise) and raise-by the excess
of the new per-round bet over the current bet, a short raise
(raise-by < min-raise) leaves the acted-this-round set unreset (the actor is
merely added) and min-raise unchanged, while still updating the current bet;
a full raise (raise-by ≥ min-raise) resets the acted set to the raiser alone,
sets min-raise to raise-by, updates the current bet, and records the raiser
as last aggressor. -/
theorem minRaise_reopen_rule (r : Room) (sid : Nat) (p : Player) (seat : Int)
    (a : PAction) (amount betAmount : Int)
    (hp : getPlayer r sid = some p) (hs : p.seatIndex = some seat)
    (hphase : ¬(r.phase = Phase.waiting ∨ r.phase = Phase.showdown))
    (hturn : r.currentTurn = some seat)
    (hact : ¬(p.isFolded = true ∨ p.isAllIn = true))
    (ha : a = PAction.bet ∨ a = PAction.raise ∨ a = PAction.allIn)
    (hnoerr : a = PAction.allIn ∨ ¬(amount < r.minRaise ∧
      (r.currentBet - p.currentBet) + amount < p.bankroll))
    (hba : betAmount = if a = PAction.allIn then p.bankroll
      else min ((r.currentBet - p.currentBet) + amount) p.bankroll)
    (hgt : r.currentBet < p.currentBet + betAmount) :
    (playerActionCore r sid a amount).1 = none ∧
    ((p.currentBet + betAmount) - r.currentBet < r.minRaise →
      (playerActionCore r sid a amount).2.actedThisRound =
        insert seat r.actedThisRound ∧
      (playerActionCore r sid a amount).2.minRaise = r.minRaise ∧
      (playerActionCore r sid a amount).2.currentBet =
        p.currentBet + betAmount) ∧
    (r.minRaise ≤ (p.currentBet + betAmount) - r.currentBet →
      (playerActionCore r sid a amount).2.actedThisRound = {seat} ∧
      (playerActionCore r sid a amount).2.minRaise =
        (p.currentBet + betAmount) - r.currentBet ∧
      (playerActionCore r sid a amount).2.currentBet =
        p.currentBet + betAmount ∧
      (playerActionCore r sid a amount).2.lastRaiser = some seat) := by
  unfold playerActionCore
  rw [hp]
  dsimp only
  rw [hs]
  dsimp only
  rw [if_neg hphase, if_neg (fun hc => hc hturn), if_neg hact]
  rcases ha with ha | ha | ha
  · subst ha
    have hba2 : betAmount =
        min ((r.currentBet - p.currentBet) + amount) p.bankroll :=
      hba.trans (if_neg (by decide))
    subst hba2
    dsimp only
    exact betRaiseBody_reopen r sid seat p amount
      (hnoerr.resolve_left (by decide)) hgt
  · subst ha
    have hba2 : betAmount =
        min ((r.currentBet - p.currentBet) + amount) p.bankroll :=
      hba.trans (if_neg (by decide))
    subst hba2
    dsimp only
    exact betRaiseBody_reopen r sid seat p amount
      (hnoerr.resolve_left (by decide)) hgt
  · subst ha
    have hba2 : betAmount = p.bankroll := hba.trans (if_pos rfl)
    subst hba2
    dsimp only [commitChips, updatePlayer]
    rw [if_pos hgt]
    by_cases hfull : r.minRaise ≤ (p.currentBet + p.bankroll) - r.currentBet
    · rw [if_pos hfull]
      dsimp only [markActed]
      exact ⟨rfl, fun hshort => absurd hfull (not_le.mpr hshort),
        fun _ => ⟨Finset.insert_idem seat ∅, rfl, rfl, rfl⟩⟩
    · rw [if_neg hfull]
      dsimp only [markActed]
      exact ⟨rfl, fun _ => ⟨rfl, rfl, rfl⟩, fun hf => absurd hf hfull⟩

/-- C5. Big-blind option: (i) `startHand` records the big-blind seat as last
aggressor while leaving the acted-this-round set empty — in particular the
big blind is not in it; (ii) a betting round in which some actable player
(such as the big blind after a limped round) is not in the acted set is never
complete; (iii) a player whose per-round bet already matches the current bet
(amount-to-call zero, the limped big blind) may check: the check command
succeeds and only adds their seat to the acted set. -/
theorem bigBlind_option :
    (∀ (r : Room) (deck : List Card), (startHand r deck).1 = true →
      (startHand r deck).2.lastRaiser = some (startHand r deck).2.bbSeat ∧
      (startHand r deck).2.actedThisRound = ∅) ∧
    (∀ (r : Room) (ent : Nat × Player) (i : Int),
      ent ∈ getActingPlayers r → ent.2.seatIndex = some i →
      i ∉ r.actedThisRound → isBettingRoundComplete r = false) ∧
    (∀ (r : Room) (sid : Nat) (p : Player) (seat : Int),
      getPlayer r sid = some p → p.seatIndex = some seat →
      ¬(r.phase = Phase.waiting ∨ r.phase = Phase.showdown) →
      r.currentTurn = some seat →
      ¬(p.isFolded = true ∨ p.isAllIn = true) →
      p.currentBet = r.currentBet →
      playerActionCore r sid PAction.check 0 = (none, markActed r seat)) := by
  refine ⟨?_, ?_, ?_⟩
  · intro r deck h
    unfold startHand at h ⊢
    by_cases hlen : (getSeatedPlayers (clearWaitingFlags r)).length < 2
    · rw [if_pos hlen] at h
      exact Bool.noConfusion h
    · rw [if_neg hlen]
      dsimp only
      split_ifs <;>
        simp [dealHoleCards_lastRaiser, dealHoleCards_bbSeat,
          dealHoleCards_acted, postBlind_acted, resetSeatedPlayers_eq,
          resetHandState]
  · intro r ent i he hsi hni
    unfold isBettingRoundComplete
    cases hb : (getActingPlayers r).all (fun e =>
        (e.2.seatIndex.elim false (fun i => decide (i ∈ r.actedThisRound))) &&
        e.2.currentBet == r.currentBet) with
    | false => rfl
    | true =>
      exfalso
      have hpred := List.all_eq_true.mp hb ent he
      rw [hsi, Bool.and_eq_true] at hpred
      exact hni (of_decide_eq_true hpred.1)
  · intro r sid p seat hp hs hphase hturn hact hbet
    unfold playerActionCore
    rw [hp]
    dsimp only
    rw [hs]
    dsimp only
    rw [if_neg hphase, if_neg (fun hc => hc hturn), if_neg hact]
    rw [if_neg (show ¬(0 < r.currentBet - p.currentBet) by
      rw [hbet, sub_self]; exact lt_irrefl 0)]

/-- Room after the preflop limp: seats 0 and 1 have called 20, and it is the
big blind's turn (seat 2) with amount-to-call zero. -/
def demoLimpedRoom : Room :=
  (runActions foldDemoStart (foldDemoActions.take 2)).2

/-- Player record of the big blind in `demoLimpedRoom`. -/
def demoPlayerC : Player :=
  { seatIndex := some 2, bankroll := 1,
    cards := [⟨.r6, .hearts⟩, ⟨.r7, .hearts⟩], isFolded := false,
    isAllIn := false, currentBet := 20, totalBetThisHand := 20,
    waitingForNextHand := false }

/-- Witness for C5 on the concrete limped hand: the big blind is the
recorded aggressor outside the (empty) acted set at hand start; after both
opponents limp, the round is not complete, and the big blind's check
succeeds, touching only the acted set. -/
theorem bigBlind_option_witness :
    ((startHand foldDemoRoom demoDeck).2.lastRaiser =
       some (startHand foldDemoRoom demoDeck).2.bbSeat ∧
     (startHand foldDemoRoom demoDeck).2.actedThisRound = ∅) ∧
    isBettingRoundComplete demoLimpedRoom = false ∧
    playerActionCore demoLimpedRoom 2 PAction.check 0 =
      (none, markActed demoLimpedRoom 2) :=
  ⟨bigBlind_option.1 foldDemoRoom demoDeck (by decide),
   bigBlind_option.2.1 demoLimpedRoom (2, demoPlayerC) 2 (by decide)
     (by decide) (by decide),
   bigBlind_option.2.2 demoLimpedRoom 2 demoPlayerC 2 (by decide) (by decide)
     (by decide) (by decide) (by decide) (by decide)⟩

/-- Short-stacked player used in the reopen-rule witness. -/
def reopenDemoP : Player :=
  { seatIndex := some 1, bankroll := 1, cards := [], isFolded := false,
    isAllIn := false, currentBet := 0, totalBetThisHand := 20,
    waitingForNextHand := false }

/-- Flop-stage room used in the reopen-rule witness: min-raise 20, current
bet 0, seat 0 already in the acted set, seat 1 (one chip left) to act. -/
def reopenDemoRoom : Room :=
  { maxPlayers := 2, seats := [some 7, some 8],
    players := [(7, { seatIndex := some 0, bankroll := 100, cards := [], isFolded := false, isAllIn := false, currentBet := 0, totalBetThisHand := 20, waitingForNextHand := false }),
                (8, reopenDemoP)],
    phase := .flop, deck := [], communityCards := [], secondBoard := [],
    pot := 40, currentBet := 0, minRaise := 20, smallBlind := 10,
    bigBlind := 20, dealerSeat := 0, sbSeat := 0, bbSeat := 1,
    currentTurn := some 1, lastRaiser := some 1, actedThisRound := {0},
    isGameRunning := true, isPaused := false, handNumber := 1,
    runItTwiceOffered := false, runItTwiceAccepted := false,
    runItTwiceVotes := [], runItTwiceEligiblePlayers := [] }

/-- Witness for C3: seat 1 bets its last chip (a short all-in raising by 1,
below the min-raise of 20); the bet succeeds, the acted set is extended (not
reset), min-raise stays 20, and the current bet becomes 1. -/
theorem minRaise_reopen_rule_witness :
    (playerActionCore reopenDemoRoom 8 PAction.bet 1).1 = none ∧
    ((reopenDemoP.currentBet + 1) - reopenDemoRoom.currentBet <
        reopenDemoRoom.minRaise →
      (playerActionCore reopenDemoRoom 8 PAction.bet 1).2.actedThisRound =
        insert 1 reopenDemoRoom.actedThisRound ∧
      (playerActionCore reopenDemoRoom 8 PAction.bet 1).2.minRaise =
        reopenDemoRoom.minRaise ∧
      (playerActionCore reopenDemoRoom 8 PAction.bet 1).2.currentBet =
        reopenDemoP.currentBet + 1) ∧
    (reopenDemoRoom.minRaise ≤
        (reopenDemoP.currentBet + 1) - reopenDemoRoom.currentBet →
      (playerActionCore reopenDemoRoom 8 PAction.bet 1).2.actedThisRound =
        {(1 : Int)} ∧
      (playerActionCore reopenDemoRoom 8 PAction.bet 1).2.minRaise =
        (reopenDemoP.currentBet + 1) - reopenDemoRoom.currentBet ∧
      (playerActionCore reopenDemoRoom 8 PAction.bet 1).2.currentBet =
        reopenDemoP.currentBet + 1 ∧
      (playerActionCore reopenDemoRoom 8 PAction.bet 1).2.lastRaiser =
        some 1) :=
  minRaise_reopen_rule reopenDemoRoom 8 reopenDemoP 1 PAction.bet 1 1
    (by decide) (by decide) (by decide) (by decide) (by decide)
    (by decide) (by decide) (by decide) (by decide)

/-! ## Run-it-twice (claim C7) -/

/-- C7. Run-it-twice: (i) finalizing the vote activates run-it-twice exactly
when every eligible voter has a recorded accept vote — a missing or declining
vote leaves it inactive, so a single board is dealt — and the offer is
closed; (ii) when active, the showdown resolves each side pot by paying the
first half plus the odd chip (⌊amount/2⌋ + amount mod 2) to the winners on
board 1 and then the second half (⌊amount/2⌋) to the winners on board 2, the
two halves together redistributing exactly the pot amount. -/
theorem runItTwice_vote_and_halving :
    (∀ r : Room,
      ((finalizeRunItTwiceVoting r).runItTwiceAccepted = true ↔
        ∀ sid ∈ r.runItTwiceEligiblePlayers,
          votesGet r.runItTwiceVotes sid = some true) ∧
      (finalizeRunItTwiceVoting r).runItTwiceOffered = false) ∧
    (∀ (e1 e2 : List PlayerHand) (r : Room) (pot : SidePot)
        (best1 best2 : PlayerHand),
      (r.players.map (fun q => q.1)).Nodup →
      (∀ ph ∈ e1, ph.sid ∈ r.players.map (fun q => q.1)) →
      (∀ ph ∈ e2, ph.sid ∈ r.players.map (fun q => q.1)) →
      findBestHand (eligibleOf pot e1) = some best1 →
      findBestHand (eligibleOf pot e2) = some best2 →
      distributeRitPot e1 e2 r pot =
        (payWinners
          (payWinners r [] (tiedWith best1 (eligibleOf pot e1))
            ((pot.amount.ediv 2 + pot.amount.emod 2).ediv
              ((tiedWith best1 (eligibleOf pot e1)).length : Int))
            ((pot.amount.ediv 2 + pot.amount.emod 2).emod
              ((tiedWith best1 (eligibleOf pot e1)).length : Int))).2
          [] (tiedWith best2 (eligibleOf pot e2))
          ((pot.amount.ediv 2).ediv
            ((tiedWith best2 (eligibleOf pot e2)).length : Int))
          ((pot.amount.ediv 2).emod
            ((tiedWith best2 (eligibleOf pot e2)).length : Int))).2 ∧
      chipSum (payWinners r [] (tiedWith best1 (eligibleOf pot e1))
          ((pot.amount.ediv 2 + pot.amount.emod 2).ediv
            ((tiedWith best1 (eligibleOf pot e1)).length : Int))
          ((pot.amount.ediv 2 + pot.amount.emod 2).emod
            ((tiedWith best1 (eligibleOf pot e1)).length : Int))).2 =
        chipSum r + (pot.amount.ediv 2 + pot.amount.emod 2) ∧
      chipSum (distributeRitPot e1 e2 r pot) = chipSum r + pot.amount) := by
  constructor
  · intro r
    refine ⟨?_, rfl⟩
    unfold finalizeRunItTwiceVoting
    dsimp only
    simp only [List.all_eq_true, beq_iff_eq]
  · intro e1 e2 r pot best1 best2 hnd h1 h2 hb1 hb2
    have hmem1 : best1 ∈ eligibleOf pot e1 :=
      findBestHand_mem _ best1 hb1
    have hmem2 : best2 ∈ eligibleOf pot e2 :=
      findBestHand_mem _ best2 hb2
    have hne1 : tiedWith best1 (eligibleOf pot e1) ≠ [] := by
      unfold tiedWith
      exact tie_filter_ne_nil _ best1 hmem1
    have hne2 : tiedWith best2 (eligibleOf pot e2) ≠ [] := by
      unfold tiedWith
      exact tie_filter_ne_nil _ best2 hmem2
    have hsub1 : ∀ w ∈ tiedWith best1 (eligibleOf pot e1),
        w.sid ∈ r.players.map (fun q => q.1) := by
      intro w hw
      unfold tiedWith eligibleOf at hw
      exact h1 w (List.mem_filter.mp (List.mem_filter.mp hw).1).1
    have hsub2base : ∀ w ∈ tiedWith best2 (eligibleOf pot e2),
        w.sid ∈ r.players.map (fun q => q.1) := by
      intro w hw
      unfold tiedWith eligibleOf at hw
      exact h2 w (List.mem_filter.mp (List.mem_filter.mp hw).1).1
    have hstruct : distributeRitPot e1 e2 r pot =
        (payWinners
          (payWinners r [] (tiedWith best1 (eligibleOf pot e1))
            ((pot.amount.ediv 2 + pot.amount.emod 2).ediv
              ((tiedWith best1 (eligibleOf pot e1)).length : Int))
            ((pot.amount.ediv 2 + pot.amount.emod 2).emod
              ((tiedWith best1 (eligibleOf pot e1)).length : Int))).2
          [] (tiedWith best2 (eligibleOf pot e2))
          ((pot.amount.ediv 2).ediv
            ((tiedWith best2 (eligibleOf pot e2)).length : Int))
          ((pot.amount.ediv 2).emod
            ((tiedWith best2 (eligibleOf pot e2)).length : Int))).2 := by
      have hb1i : findBestHand (List.filter
          (fun ph => pot.eligibleSeats.contains ph.seatIndex) e1) =
          some best1 := hb1
      have hb2i : findBestHand (List.filter
          (fun ph => pot.eligibleSeats.contains ph.seatIndex) e2) =
          some best2 := hb2
      unfold distributeRitPot
      dsimp only
      rw [hb1i]
      dsimp only
      rw [hb2i]
      rfl
    have hacc1 : chipSum (payWinners r [] (tiedWith best1 (eligibleOf pot e1))
        ((pot.amount.ediv 2 + pot.amount.emod 2).ediv
          ((tiedWith best1 (eligibleOf pot e1)).length : Int))
        ((pot.amount.ediv 2 + pot.amount.emod 2).emod
          ((tiedWith best1 (eligibleOf pot e1)).length : Int))).2 =
        chipSum r + (pot.amount.ediv 2 + pot.amount.emod 2) := by
      rw [payWinners_accounting r [] _ _ _ hnd hsub1 hne1]
      have key : (pot.amount.ediv 2 + pot.amount.emod 2).ediv
            ((tiedWith best1 (eligibleOf pot e1)).length : Int) *
            ((tiedWith best1 (eligibleOf pot e1)).length : Int) +
          (pot.amount.ediv 2 + pot.amount.emod 2).emod
            ((tiedWith best1 (eligibleOf pot e1)).length : Int) =
          pot.amount.ediv 2 + pot.amount.emod 2 := by
        rw [mul_comm]
        exact Int.ediv_add_emod _ _
      rw [key]
    refine ⟨hstruct, hacc1, ?_⟩
    rw [hstruct]
    set rMid := (payWinners r [] (tiedWith best1 (eligibleOf pot e1))
      ((pot.amount.ediv 2 + pot.amount.emod 2).ediv
        ((tiedWith best1 (eligibleOf pot e1)).length : Int))
      ((pot.amount.ediv 2 + pot.amount.emod 2).emod
        ((tiedWith best1 (eligibleOf pot e1)).length : Int))).2 with hrMid
    have hkeysMid : rMid.players.map (fun q => q.1) =
        r.players.map (fun q => q.1) := by
      rw [hrMid]
      exact payWinners_keys r [] _ _ _
    have hsub2 : ∀ w ∈ tiedWith best2 (eligibleOf pot e2),
        w.sid ∈ rMid.players.map (fun q => q.1) := by
      intro w hw
      rw [hkeysMid]
      exact hsub2base w hw
    rw [payWinners_accounting rMid [] _ _ _ (hkeysMid ▸ hnd) hsub2 hne2]
    rw [hacc1]
    have key2 : (pot.amount.ediv 2).ediv
          ((tiedWith best2 (eligibleOf pot e2)).length : Int) *
          ((tiedWith best2 (eligibleOf pot e2)).length : Int) +
        (pot.amount.ediv 2).emod
          ((tiedWith best2 (eligibleOf pot e2)).length : Int) =
        pot.amount.ediv 2 := by
      rw [mul_comm]
      exact Int.ediv_add_emod _ _
    rw [key2]
    have key3 : 2 * pot.amount.ediv 2 + pot.amount.emod 2 = pot.amount :=
      Int.ediv_add_emod _ _
    linarith [key3]

/-- Room with a live run-it-twice offer and two recorded accept votes. -/
def ritVoteRoom : Room :=
  { foldDemoRoom with runItTwiceOffered := true,
                      runItTwiceVotes := [(4, true), (5, true)],
                      runItTwiceEligiblePlayers := [4, 5] }

/-- Two-player room used in the halving witness. -/
def ritDemoRoom : Room :=
  { foldDemoRoom with maxPlayers := 2, seats := [some 1, some 2],
                      players := [(1, mkSeated 0 0), (2, mkSeated 0 1)] }

/-- A 101-chip side pot both seats are eligible for. -/
def ritDemoPot : SidePot :=
  { amount := 101, eligibleSeats := [0, 1], level := 50 }

/-- Board-1 evaluations: seat 0 has the straight and wins. -/
def ritDemoE1 : List PlayerHand :=
  [{ sid := 1, seatIndex := 0, handRank := 5, highCards := [10] },
   { sid := 2, seatIndex := 1, handRank := 3, highCards := [9] }]

/-- Board-2 evaluations: seat 1 has the flush and wins. -/
def ritDemoE2 : List PlayerHand :=
  [{ sid := 1, seatIndex := 0, handRank := 2, highCards := [7] },
   { sid := 2, seatIndex := 1, handRank := 6, highCards := [8] }]

/-- Best board-1 hand in the witness. -/
def ritBest1 : PlayerHand :=
  { sid := 1, seatIndex := 0, handRank := 5, highCards := [10] }

/-- Best board-2 hand in the witness. -/
def ritBest2 : PlayerHand :=
  { sid := 2, seatIndex := 1, handRank := 6, highCards := [8] }

/-- Witness for C7: the two-accept vote activates run-it-twice, and the
101-chip pot splits as 51 to the board-1 winner and 50 to the board-2
winner. -/
theorem runItTwice_vote_and_halving_witness :
    (((finalizeRunItTwiceVoting ritVoteRoom).runItTwiceAccepted = true ↔
        ∀ sid ∈ ritVoteRoom.runItTwiceEligiblePlayers,
          votesGet ritVoteRoom.runItTwiceVotes sid = some true) ∧
      (finalizeRunItTwiceVoting ritVoteRoom).runItTwiceOffered = false) ∧
    (distributeRitPot ritDemoE1 ritDemoE2 ritDemoRoom ritDemoPot =
      (payWinners
        (payWinners ritDemoRoom [] (tiedWith ritBest1 (eligibleOf ritDemoPot ritDemoE1))
          ((ritDemoPot.amount.ediv 2 + ritDemoPot.amount.emod 2).ediv
            ((tiedWith ritBest1 (eligibleOf ritDemoPot ritDemoE1)).length : Int))
          ((ritDemoPot.amount.ediv 2 + ritDemoPot.amount.emod 2).emod
            ((tiedWith ritBest1 (eligibleOf ritDemoPot ritDemoE1)).length : Int))).2
        [] (tiedWith ritBest2 (eligibleOf ritDemoPot ritDemoE2))
        ((ritDemoPot.amount.ediv 2).ediv
          ((tiedWith ritBest2 (eligibleOf ritDemoPot ritDemoE2)).length : Int))
        ((ritDemoPot.amount.ediv 2).emod
          ((tiedWith ritBest2 (eligibleOf ritDemoPot ritDemoE2)).length : Int))).2 ∧
    chipSum (payWinners ritDemoRoom []
        (tiedWith ritBest1 (eligibleOf ritDemoPot ritDemoE1))
        ((ritDemoPot.amount.ediv 2 + ritDemoPot.amount.emod 2).ediv
          ((tiedWith ritBest1 (eligibleOf ritDemoPot ritDemoE1)).length : Int))
        ((ritDemoPot.amount.ediv 2 + ritDemoPot.amount.emod 2).emod
          ((tiedWith ritBest1 (eligibleOf ritDemoPot ritDemoE1)).length : Int))).2 =
      chipSum ritDemoRoom +
        (ritDemoPot.amount.ediv 2 + ritDemoPot.amount.emod 2) ∧
    chipSum (distributeRitPot ritDemoE1 ritDemoE2 ritDemoRoom ritDemoPot) =
      chipSum ritDemoRoom + ritDemoPot.amount) :=
  ⟨runItTwice_vote_and_halving.1 ritVoteRoom,
   runItTwice_vote_and_halving.2 ritDemoE1 ritDemoE2 ritDemoRoom ritDemoPot
     ritBest1 ritBest2 (by decide) (by decide) (by decide) (by decide)
     (by decide)⟩

/-- Player record of seat 1 (small blind) in the concrete dealt hand. -/
def demoPlayerB : Player :=
  { seatIndex := some 1, bankroll := 11,
    cards := [⟨.r4, .hearts⟩, ⟨.r5, .hearts⟩], isFolded := false,
    isAllIn := false, currentBet := 10, totalBetThisHand := 10,
    waitingForNextHand := false }

/-- Witness for C10: the small blind of the concrete dealt hand leaves their
seat mid-hand; the slot is vacated, their cards cleared, their 11 remaining
chips forfeited, and they are auto-folded. -/
theorem leaveSeat_forfeits_witness :
    getPlayer foldDemoStart 1 = some demoPlayerB ∧
    ((leaveSeat foldDemoStart 1).1 = true ∧
     (leaveSeat foldDemoStart 1).2.seats.getD (1 : Int).toNat none = none ∧
     ∃ q : Player, getPlayer (leaveSeat foldDemoStart 1).2 1 = some q ∧
       q.cards = [] ∧ q.bankroll = 0 ∧ q.seatIndex = none ∧
       (foldDemoStart.phase ≠ Phase.waiting →
        0 < demoPlayerB.totalBetThisHand →
        demoPlayerB.isFolded = false → q.isFolded = true)) :=
  ⟨by decide,
   leaveSeat_forfeits foldDemoStart 1 demoPlayerB 1 (by decide) (by decide)
     (by decide)⟩

/-! ## Odd-chip remainder rule (claim C6)

The code's `awardPots` gives the remainder of a non-divisible layer to
`index === 0` of the winner list, i.e. to the first tied winner in the
showdown computation order (the stable strength-sorted `playerHands` list).
The claim instead demands the eligible winner closest clockwise from the
small-blind seat. The two rules disagree; the definition below follows the
claim's words (not the source) so the two can be compared. -/

/-- Modelled from the claim's words, not from the source: the winner seat
closest clockwise from the small-blind seat, scanning seats
`sb+1, sb+2, ...` modulo the table size. -/
def nearestWinnerClockwiseFromSB (maxPlayers : Nat) (sbSeat : Int)
    (winnerSeats : List Int) : Option Int :=
  (List.range maxPlayers).findSome? (fun i =>
    let s := (sbSeat + ((i : Int) + 1)).emod (maxPlayers : Int)
    if winnerSeats.contains s then some s else none)

/-- Community cards of the concrete tied showdown: two pair on board. -/
def oddBoard : List Card :=
  [⟨.rA, .spades⟩, ⟨.rA, .diamonds⟩, ⟨.r5, .clubs⟩, ⟨.r5, .hearts⟩,
   ⟨.r9, .spades⟩]

/-- All-in river player with 15 chips committed and an empty stack. -/
def oddChipP (seat : Int) (cards : List Card) : Player :=
  { seatIndex := some seat, bankroll := 0, cards := cards,
    isFolded := false, isAllIn := true, currentBet := 0,
    totalBetThisHand := 15, waitingForNextHand := false }

/-- Concrete river room: three players all-in for 15 each (pot 45, one
layer), small blind seat 1; seats 0 and 2 hold K-high kickers that tie on
the double-paired board, seat 1 holds a worse kicker. -/
def oddChipRoom : Room :=
  { maxPlayers := 3, seats := [some 10, some 20, some 30],
    players := [(10, oddChipP 0 [⟨.rK, .clubs⟩, ⟨.rQ, .diamonds⟩]),
                (20, oddChipP 1 [⟨.r2, .clubs⟩, ⟨.r3, .diamonds⟩]),
                (30, oddChipP 2 [⟨.rK, .spades⟩, ⟨.rJ, .diamonds⟩])],
    phase := .river, deck := [], communityCards := oddBoard,
    secondBoard := [], pot := 45, currentBet := 0, minRaise := 20,
    smallBlind := 10, bigBlind := 20, dealerSeat := 0, sbSeat := 1,
    bbSeat := 2, currentTurn := none, lastRaiser := none,
    actedThisRound := ∅, isGameRunning := true, isPaused := false,
    handNumber := 1, runItTwiceOffered := false, runItTwiceAccepted := false,
    runItTwiceVotes := [], runItTwiceEligiblePlayers := [] }

/-- C6 counterexample. In the concrete room the hands of seats 0 and 2 are a
true tie, so both are winners of the single 45-chip layer; the winner seat
closest clockwise from the small blind (seat 1) is seat 2, yet the code pays
the odd chip to seat 0 (bankrolls 23 vs 22 after showdown): the remainder
goes to the first winner in computation order, not positionally. -/
theorem oddChip_remainder_not_positional :
    evaluateHand [⟨.rK, .clubs⟩, ⟨.rQ, .diamonds⟩] oddBoard =
      evaluateHand [⟨.rK, .spades⟩, ⟨.rJ, .diamonds⟩] oddBoard ∧
    oddChipRoom.sbSeat = 1 ∧
    nearestWinnerClockwiseFromSB oddChipRoom.maxPlayers oddChipRoom.sbSeat
      [0, 2] = some 2 ∧
    (getPlayer (goToShowdown oddChipRoom) 30).map (fun p => p.bankroll) =
      some 22 ∧
    (getPlayer (goToShowdown oddChipRoom) 10).map (fun p => p.bankroll) =
      some 23 := by
  decide

/-- C6 (amended). What the code actually guarantees for each pot layer at a
single-board showdown: the layer is distributed to exactly the tied best
eligible hands, each winner receives the floor share, the remainder goes to
the FIRST tied winner in the showdown computation order (the stable
strength-sorted hand list) rather than to the winner nearest clockwise from
the small blind, and the layer is paid out in full. -/
theorem oddChip_remainder_to_first_winner (playerHands : List PlayerHand)
    (aw : List (Int × Int)) (r : Room) (pot : SidePot) (best : PlayerHand)
    (hnd : (r.players.map (fun q => q.1)).Nodup)
    (hsub : ∀ ph ∈ playerHands, ph.sid ∈ r.players.map (fun q => q.1))
    (hb : findBestHand (eligibleOf pot playerHands) = some best) :
    distributePot playerHands (aw, r) pot =
      payWinners r aw (tiedWith best (eligibleOf pot playerHands))
        (pot.amount.ediv
          ((tiedWith best (eligibleOf pot playerHands)).length : Int))
        (pot.amount.emod
          ((tiedWith best (eligibleOf pot playerHands)).length : Int)) ∧
    chipSum (distributePot playerHands (aw, r) pot).2 =
      chipSum r + pot.amount ∧
    ∀ w rest, tiedWith best (eligibleOf pot playerHands) = w :: rest →
      (∀ x ∈ rest, x.sid ≠ w.sid) →
      getPlayer (distributePot playerHands (aw, r) pot).2 w.sid =
        (getPlayer r w.sid).map (fun p => { p with bankroll := p.bankroll +
          (pot.amount.ediv
            ((tiedWith best (eligibleOf pot playerHands)).length : Int) +
           pot.amount.emod
            ((tiedWith best (eligibleOf pot playerHands)).length : Int)) }) := by
  have hbest_mem : best ∈ eligibleOf pot playerHands :=
    findBestHand_mem _ best hb
  have hne : tiedWith best (eligibleOf pot playerHands) ≠ [] :=
    tie_filter_ne_nil _ best hbest_mem
  have hb2 : findBestHand (playerHands.filter
      (fun ph => pot.eligibleSeats.contains ph.seatIndex)) = some best := hb
  have hstruct : distributePot playerHands (aw, r) pot =
      payWinners r aw (tiedWith best (eligibleOf pot playerHands))
        (pot.amount.ediv
          ((tiedWith best (eligibleOf pot playerHands)).length : Int))
        (pot.amount.emod
          ((tiedWith best (eligibleOf pot playerHands)).length : Int)) := by
    unfold distributePot
    dsimp only
    rw [hb2]
    rfl
  have hws : ∀ x ∈ tiedWith best (eligibleOf pot playerHands),
      x.sid ∈ r.players.map (fun q => q.1) := by
    intro x hx
    have hx2 : x ∈ (eligibleOf pot playerHands).filter (fun ph =>
        ph.handRank == best.handRank && ph.highCards == best.highCards) := hx
    have h1 := List.mem_filter.mp hx2
    have hx3 : x ∈ playerHands.filter
        (fun ph => pot.eligibleSeats.contains ph.seatIndex) := h1.1
    exact hsub x (List.mem_filter.mp hx3).1
  refine ⟨hstruct, ?_, ?_⟩
  · rw [hstruct,
      payWinners_accounting r aw (tiedWith best (eligibleOf pot playerHands))
        (pot.amount.ediv
          ((tiedWith best (eligibleOf pot playerHands)).length : Int))
        (pot.amount.emod
          ((tiedWith best (eligibleOf pot playerHands)).length : Int))
        hnd hws hne]
    have key : pot.amount.ediv
          ((tiedWith best (eligibleOf pot playerHands)).length : Int) *
          ((tiedWith best (eligibleOf pot playerHands)).length : Int) +
        pot.amount.emod
          ((tiedWith best (eligibleOf pot playerHands)).length : Int) =
        pot.amount := by
      rw [mul_comm]
      exact Int.ediv_add_emod _ _
    rw [key]
  · intro w rest hW hrest
    rw [hstruct, hW]
    have hfr := payList_frame w.sid
      (pot.amount.ediv ((w :: rest).length : Int)) rest
      (updatePlayer r w.sid (fun p => { p with bankroll := p.bankroll +
        (pot.amount.ediv ((w :: rest).length : Int) +
         pot.amount.emod ((w :: rest).length : Int)) }))
      (awardsAdd aw w.seatIndex
        (pot.amount.ediv ((w :: rest).length : Int) +
         pot.amount.emod ((w :: rest).length : Int))) hrest
    exact hfr.2.trans (storeGet_storeSet_self r.players w.sid
      (fun p => { p with bankroll := p.bankroll +
        (pot.amount.ediv ((w :: rest).length : Int) +
         pot.amount.emod ((w :: rest).length : Int)) }))

/-- Evaluated hands of the concrete tied showdown in computation (sorted)
order: seats 0 and 2 tie with aces and fives, king kicker; seat 1 trails. -/
def oddDemoHands : List PlayerHand :=
  [{ sid := 10, seatIndex := 0, handRank := 3, highCards := [14, 5, 13] },
   { sid := 30, seatIndex := 2, handRank := 3, highCards := [14, 5, 13] },
   { sid := 20, seatIndex := 1, handRank := 3, highCards := [14, 5, 9] }]

/-- The single 45-chip layer of the concrete showdown. -/
def oddDemoPot : SidePot :=
  { amount := 45, eligibleSeats := [0, 1, 2], level := 15 }

/-- The best hand of the concrete showdown (seat 0, first of the tie). -/
def oddDemoBest : PlayerHand :=
  { sid := 10, seatIndex := 0, handRank := 3, highCards := [14, 5, 13] }

/-- Witness for the amended C6 theorem at the concrete tied showdown: the
45-chip layer goes to the two tied winners as 22 each plus the odd chip to
the first of them in computation order (seat 0), paying out the layer in
full. -/
theorem oddChip_remainder_to_first_winner_witness :
    (distributePot oddDemoHands ([], oddChipRoom) oddDemoPot =
      payWinners oddChipRoom []
        (tiedWith oddDemoBest (eligibleOf oddDemoPot oddDemoHands))
        (oddDemoPot.amount.ediv
          ((tiedWith oddDemoBest (eligibleOf oddDemoPot oddDemoHands)).length :
            Int))
        (oddDemoPot.amount.emod
          ((tiedWith oddDemoBest (eligibleOf oddDemoPot oddDemoHands)).length :
            Int)) ∧
     chipSum (distributePot oddDemoHands ([], oddChipRoom) oddDemoPot).2 =
       chipSum oddChipRoom + oddDemoPot.amount ∧
     getPlayer (distributePot oddDemoHands ([], oddChipRoom) oddDemoPot).2
         oddDemoBest.sid =
       (getPlayer oddChipRoom oddDemoBest.sid).map (fun p =>
         { p with bankroll := p.bankroll +
           (oddDemoPot.amount.ediv
             ((tiedWith oddDemoBest
                (eligibleOf oddDemoPot oddDemoHands)).length : Int) +
            oddDemoPot.amount.emod
             ((tiedWith oddDemoBest
                (eligibleOf oddDemoPot oddDemoHands)).length : Int)) })) := by
  have h := oddChip_remainder_to_first_winner oddDemoHands [] oddChipRoom
    oddDemoPot oddDemoBest (by decide) (by decide) (by decide)
  exact ⟨h.1, h.2.1,
    h.2.2 oddDemoBest
      [{ sid := 30, seatIndex := 2, handRank := 3, highCards := [14, 5, 13] }]
      (by decide) (by decide)⟩

/-! ## Side-pot layering (claim C1)

`calculateSidePots` is compared against a second set of definitions written
from the claim's words: contributor records for every seat that put chips in
(including folders), levels = the ascending distinct contributions of the
non-folded contributors, per-level amount
`Σ over all contributors of min(contribution, ℓ) − min(contribution, prev)`,
eligibility = the non-folded contributors with contribution ≥ ℓ. The code
additionally sorts the contributor list and clamps each summand at 0, so the
comparison is pointwise: equal levels, equal amounts, and eligible-seat lists
with the same members. -/

/-- Modelled from the claim's words: the (seat, contribution, is-non-folded)
records of every seat that put chips in this hand, folders included. -/
def specContributors (r : Room) : List Contributor :=
  ((seatEntries r).filter (fun e => 0 < e.2.totalBetThisHand)).map
    (fun e =>
      { seatIndex := e.2.seatIndex.getD (-1),
        contribution := e.2.totalBetThisHand,
        isActive := !e.2.isFolded : Contributor })

/-- Modelled from the claim's words: `L`, the ascending list of distinct
contribution totals among the non-folded contributors. -/
def specLevels (r : Room) : List Int :=
  uniqueSortedLevels
    (((specContributors r).filter (fun c => c.isActive)).map
      (fun c => c.contribution))

/-- Modelled from the claim's words: one layer at level `ℓ` with amount
`Σ over all contributors of min(contribution, ℓ) − min(contribution, prev)`
and the non-folded contributors with contribution ≥ `ℓ` eligible. -/
def specLayer (contributors : List Contributor) (prevLevel level : Int) :
    SidePot :=
  { amount := (contributors.map (fun c =>
      min c.contribution level - min c.contribution prevLevel)).sum,
    eligibleSeats :=
      (contributors.filter (fun c =>
        c.isActive && decide (level ≤ c.contribution))).map
        (fun c => c.seatIndex),
    level := level }

/-- Runs `specLayer` over the level list, threading the previous level. -/
def specLayersLoop (contributors : List Contributor) :
    List Int → Int → List SidePot
  | [], _ => []
  | level :: rest, prev =>
      specLayer contributors prev level ::
        specLayersLoop contributors rest level

/-- Modelled from the claim's words: the full layered pot decomposition. -/
def specSidePots (r : Room) : List SidePot :=
  specLayersLoop (specContributors r) (specLevels r) 0

/-- Pointwise correspondence between a code layer and a spec layer: same
level, same amount, same eligible seats (as sets; the code lists them in
contribution order, the spec in seat order). -/
def specPotMatch (p q : SidePot) : Prop :=
  p.level = q.level ∧ p.amount = q.amount ∧
  ∀ s, s ∈ p.eligibleSeats ↔ s ∈ q.eligibleSeats

theorem foldl_add_sum (f : Contributor → Int) :
    ∀ (l : List Contributor) (a : Int),
    l.foldl (fun s c => s + f c) a = a + (l.map f).sum
  | [], a => by simp
  | c :: t, a => by
    show List.foldl (fun s c => s + f c) (a + f c) t = _
    rw [foldl_add_sum f t (a + f c)]
    simp [add_assoc]

theorem sum_pos_of_mem (x : Int) :
    ∀ (l : List Int), (∀ y ∈ l, 0 ≤ y) → x ∈ l → 0 < x → 0 < l.sum
  | [], _, hx, _ => absurd hx (List.not_mem_nil x)
  | y :: t, hnn, hx, hpos => by
    rw [List.sum_cons]
    rcases List.mem_cons.mp hx with h | h
    · have ht : (0 : Int) ≤ t.sum :=
        List.sum_nonneg (fun z hz => hnn z (List.mem_cons_of_mem y hz))
      exact add_pos_of_pos_of_nonneg (h ▸ hpos) ht
    · have hy : (0 : Int) ≤ y := hnn y (List.mem_cons_self y t)
      exact add_pos_of_nonneg_of_pos hy
        (sum_pos_of_mem x t
          (fun z hz => hnn z (List.mem_cons_of_mem y hz)) h hpos)

theorem insertLevel_mem (a : Int) :
    ∀ (l : List Int) (x : Int), x ∈ insertLevel a l ↔ x = a ∨ x ∈ l
  | [], x => by simp [insertLevel]
  | y :: ys, x => by
    unfold insertLevel
    by_cases h1 : a < y
    · rw [if_pos h1]
      simp [List.mem_cons]
    · rw [if_neg h1]
      by_cases h2 : a = y
      · rw [if_pos h2]
        subst h2
        simp [List.mem_cons]
      · rw [if_neg h2]
        simp [List.mem_cons, insertLevel_mem a ys x]
        tauto

theorem uniqueSortedLevels_mem :
    ∀ (l : List Int) (x : Int), x ∈ uniqueSortedLevels l ↔ x ∈ l
  | [], x => by simp [uniqueSortedLevels]
  | y :: ys, x => by
    show x ∈ insertLevel y (uniqueSortedLevels ys) ↔ _
    rw [insertLevel_mem, uniqueSortedLevels_mem ys x]
    simp [List.mem_cons]

theorem insertLevel_pairwise (a : Int) :
    ∀ (l : List Int), l.Pairwise (· < ·) →
    (insertLevel a l).Pairwise (· < ·)
  | [], _ => by simp [insertLevel]
  | y :: ys, hp => by
    obtain ⟨hy, hys⟩ := List.pairwise_cons.mp hp
    unfold insertLevel
    by_cases h1 : a < y
    · rw [if_pos h1]
      refine List.pairwise_cons.mpr ⟨?_, hp⟩
      intro z hz
      rcases List.mem_cons.mp hz with h | h
      · exact h ▸ h1
      · exact h1.trans (hy z h)
    · rw [if_neg h1]
      by_cases h2 : a = y
      · rw [if_pos h2]
        exact hp
      · rw [if_neg h2]
        have hya : y < a :=
          lt_of_le_of_ne (not_lt.mp h1) (fun hc => h2 hc.symm)
        refine List.pairwise_cons.mpr ⟨?_, insertLevel_pairwise a ys hys⟩
        intro z hz
        rcases (insertLevel_mem a ys z).mp hz with h | h
        · exact h ▸ hya
        · exact hy z h

theorem uniqueSortedLevels_pairwise :
    ∀ (l : List Int), (uniqueSortedLevels l).Pairwise (· < ·)
  | [] => List.Pairwise.nil
  | y :: ys => insertLevel_pairwise y _ (uniqueSortedLevels_pairwise ys)

theorem sortedLevels_ext (l1 l2 : List Int)
    (h1 : l1.Pairwise (· < ·)) (h2 : l2.Pairwise (· < ·))
    (hm : ∀ x, x ∈ l1 ↔ x ∈ l2) : l1 = l2 := by
  have d1 : l1.Nodup := h1.imp (fun h => ne_of_lt h)
  have d2 : l2.Nodup := h2.imp (fun h => ne_of_lt h)
  have hperm : l1.Perm l2 := (List.perm_ext_iff_of_nodup d1 d2).mpr hm
  exact List.eq_of_perm_of_sorted hperm
    (h1.imp (fun h => le_of_lt h)) (h2.imp (fun h => le_of_lt h))

theorem specContributors_pos (r : Room) :
    ∀ c ∈ specContributors r, 0 < c.contribution := by
  intro c hc
  obtain ⟨e, he, heq⟩ := List.mem_map.mp hc
  have hf := List.mem_filter.mp he
  rw [← heq]
  exact of_decide_eq_true hf.2

theorem sidePotsLoop_spec (S C : List Contributor) (hperm : S.Perm C) :
    ∀ (levels : List Int) (prev : Int),
    (prev :: levels).Pairwise (· < ·) →
    (∀ x ∈ levels, ∃ c, c ∈ S ∧ c.isActive = true ∧ c.contribution = x) →
    List.Forall₂ specPotMatch
      (sidePotsLoop S (S.filter (fun c => c.isActive)) levels prev)
      (specLayersLoop C levels prev)
  | [], _, _, _ => List.Forall₂.nil
  | l :: rest, prev, hp, hin => by
    obtain ⟨hhead, htail⟩ := List.pairwise_cons.mp hp
    have hprev : prev < l := hhead l (List.mem_cons_self l rest)
    have hfold : S.foldl (fun sum c =>
        sum + max 0 (min c.contribution l - min c.contribution prev)) 0 =
        (S.map (fun c =>
          max 0 (min c.contribution l - min c.contribution prev))).sum := by
      rw [foldl_add_sum, zero_add]
    obtain ⟨c0, hc0S, hc0act, hc0eq⟩ := hin l (List.mem_cons_self l rest)
    have hterm : (0 : Int) <
        max 0 (min c0.contribution l - min c0.contribution prev) := by
      rw [hc0eq, min_self, min_eq_right (le_of_lt hprev)]
      exact lt_of_lt_of_le (sub_pos.mpr hprev) (le_max_right 0 (l - prev))
    have hpos : (0 : Int) < S.foldl (fun sum c =>
        sum + max 0 (min c.contribution l - min c.contribution prev)) 0 := by
      rw [hfold]
      refine sum_pos_of_mem
        (max 0 (min c0.contribution l - min c0.contribution prev)) _
        ?_ (List.mem_map_of_mem _ hc0S) hterm
      intro y hy
      obtain ⟨c, _, hceq⟩ := List.mem_map.mp hy
      rw [← hceq]
      exact le_max_left 0 _
    have hstep : sidePotsLoop S (S.filter (fun c => c.isActive))
        (l :: rest) prev =
        { amount := S.foldl (fun sum c =>
            sum + max 0 (min c.contribution l - min c.contribution prev)) 0,
          eligibleSeats := ((S.filter (fun c => c.isActive)).filter
            (fun c => decide (l ≤ c.contribution))).map
            (fun c => c.seatIndex),
          level := l } ::
          sidePotsLoop S (S.filter (fun c => c.isActive)) rest l := by
      show (if 0 < S.foldl (fun sum c =>
            sum + max 0 (min c.contribution l - min c.contribution prev)) 0
          then
            [{ amount := S.foldl (fun sum c =>
                sum + max 0 (min c.contribution l - min c.contribution prev))
                0,
               eligibleSeats := ((S.filter (fun c => c.isActive)).filter
                 (fun c => decide (l ≤ c.contribution))).map
                 (fun c => c.seatIndex),
               level := l : SidePot }]
          else []) ++
          sidePotsLoop S (S.filter (fun c => c.isActive)) rest l = _
      rw [if_pos hpos]
      rfl
    rw [hstep]
    have hstep2 : specLayersLoop C (l :: rest) prev =
        specLayer C prev l :: specLayersLoop C rest l := rfl
    rw [hstep2]
    refine List.Forall₂.cons ⟨rfl, ?_, ?_⟩
      (sidePotsLoop_spec S C hperm rest l htail
        (fun x hx => hin x (List.mem_cons_of_mem l hx)))
    · show S.foldl (fun sum c =>
          sum + max 0 (min c.contribution l - min c.contribution prev)) 0 =
        (C.map (fun c =>
          min c.contribution l - min c.contribution prev)).sum
      rw [hfold]
      have hcollapse : S.map (fun c =>
          max 0 (min c.contribution l - min c.contribution prev)) =
          S.map (fun c => min c.contribution l - min c.contribution prev) := by
        refine List.map_congr_left ?_
        intro c _
        exact max_eq_right (sub_nonneg.mpr
          (min_le_min (le_refl c.contribution) (le_of_lt hprev)))
      rw [hcollapse]
      exact List.Perm.sum_eq (hperm.map
        (fun c => min c.contribution l - min c.contribution prev))
    · intro s
      show s ∈ ((S.filter (fun c => c.isActive)).filter
          (fun c => decide (l ≤ c.contribution))).map (fun c => c.seatIndex) ↔
        s ∈ (C.filter (fun c =>
          c.isActive && decide (l ≤ c.contribution))).map (fun c => c.seatIndex)
      constructor
      · intro h
        obtain ⟨c, hcf, hcs⟩ := List.mem_map.mp h
        have h2 := List.mem_filter.mp hcf
        have h3 := List.mem_filter.mp h2.1
        refine List.mem_map.mpr ⟨c, List.mem_filter.mpr
          ⟨hperm.subset h3.1, ?_⟩, hcs⟩
        rw [Bool.and_eq_true]
        exact ⟨h3.2, h2.2⟩
      · intro h
        obtain ⟨c, hcf, hcs⟩ := List.mem_map.mp h
        have h2 := List.mem_filter.mp hcf
        have h3 := h2.2
        rw [Bool.and_eq_true] at h3
        exact List.mem_map.mpr ⟨c, List.mem_filter.mpr
          ⟨List.mem_filter.mpr ⟨hperm.symm.subset h2.1, h3.1⟩, h3.2⟩, hcs⟩

/-- C1. Side-pot layering: for a room with at least one active player and at
least one contributor, `calculateSidePots` agrees layer-by-layer with the
claim's algorithm (same level, the claim's `Σ min(contribution, level) −
min(contribution, previous level)` amount over all contributors folders
included, and the same eligible seats — the non-folded contributors at or
above the level); the level list is strictly ascending and holds exactly the
distinct non-folded contributions; and a layer whose eligibility filter
leaves a single hand is awarded to that hand outright (its full amount). -/
theorem sidePot_layering (r : Room)
    (hactive : ¬((getActivePlayers r).length = 0))
    (hcontrib : specContributors r ≠ []) :
    (List.Forall₂ specPotMatch (calculateSidePots r) (specSidePots r) ∧
     (specLevels r).Pairwise (· < ·) ∧
     (∀ x, x ∈ specLevels r ↔
       ∃ c, c ∈ specContributors r ∧ c.isActive = true ∧
         c.contribution = x)) ∧
    ∀ (playerHands : List PlayerHand) (aw : List (Int × Int)) (pot : SidePot)
      (ph : PlayerHand), eligibleOf pot playerHands = [ph] →
      getPlayer (distributePot playerHands (aw, r) pot).2 ph.sid =
        (getPlayer r ph.sid).map
          (fun p => { p with bankroll := p.bankroll + pot.amount }) := by
  have hperm : ((specContributors r).insertionSort
      (fun a b => a.contribution ≤ b.contribution)).Perm
      (specContributors r) := List.perm_insertionSort _ _
  refine ⟨⟨?_, uniqueSortedLevels_pairwise _, ?_⟩, ?_⟩
  · have hcalc : calculateSidePots r =
        if (getActivePlayers r).length = 0 then []
        else if ((specContributors r).insertionSort
            (fun a b => a.contribution ≤ b.contribution)).length = 0 then []
        else sidePotsLoop
          ((specContributors r).insertionSort
            (fun a b => a.contribution ≤ b.contribution))
          (((specContributors r).insertionSort
            (fun a b => a.contribution ≤ b.contribution)).filter
            (fun c => c.isActive))
          (uniqueSortedLevels ((((specContributors r).insertionSort
            (fun a b => a.contribution ≤ b.contribution)).filter
            (fun c => c.isActive)).map (fun c => c.contribution))) 0 := rfl
    rw [hcalc, if_neg hactive]
    have hlen : ¬(((specContributors r).insertionSort
        (fun a b => a.contribution ≤ b.contribution)).length = 0) := by
      rw [hperm.length_eq]
      intro hc
      exact hcontrib (List.length_eq_zero.mp hc)
    rw [if_neg hlen]
    have hlev : uniqueSortedLevels ((((specContributors r).insertionSort
        (fun a b => a.contribution ≤ b.contribution)).filter
        (fun c => c.isActive)).map (fun c => c.contribution)) =
        specLevels r := by
      refine sortedLevels_ext _ _ (uniqueSortedLevels_pairwise _)
        (uniqueSortedLevels_pairwise _) ?_
      intro x
      show _ ↔ x ∈ uniqueSortedLevels
        (((specContributors r).filter (fun c => c.isActive)).map
          (fun c => c.contribution))
      rw [uniqueSortedLevels_mem, uniqueSortedLevels_mem]
      constructor
      · intro h
        obtain ⟨c, hc, hceq⟩ := List.mem_map.mp h
        have h2 := List.mem_filter.mp hc
        exact List.mem_map.mpr
          ⟨c, List.mem_filter.mpr ⟨hperm.subset h2.1, h2.2⟩, hceq⟩
      · intro h
        obtain ⟨c, hc, hceq⟩ := List.mem_map.mp h
        have h2 := List.mem_filter.mp hc
        exact List.mem_map.mpr
          ⟨c, List.mem_filter.mpr ⟨hperm.symm.subset h2.1, h2.2⟩, hceq⟩
    rw [hlev]
    show List.Forall₂ specPotMatch _
      (specLayersLoop (specContributors r) (specLevels r) 0)
    refine sidePotsLoop_spec _ _ hperm (specLevels r) 0 ?_ ?_
    · refine List.pairwise_cons.mpr ⟨?_, uniqueSortedLevels_pairwise _⟩
      intro x hx
      have hx2 : x ∈ uniqueSortedLevels
          (((specContributors r).filter (fun c => c.isActive)).map
            (fun c => c.contribution)) := hx
      rw [uniqueSortedLevels_mem] at hx2
      obtain ⟨c, hc, hceq⟩ := List.mem_map.mp hx2
      have h2 := List.mem_filter.mp hc
      rw [← hceq]
      exact specContributors_pos r c h2.1
    · intro x hx
      have hx2 : x ∈ uniqueSortedLevels
          (((specContributors r).filter (fun c => c.isActive)).map
            (fun c => c.contribution)) := hx
      rw [uniqueSortedLevels_mem] at hx2
      obtain ⟨c, hc, hceq⟩ := List.mem_map.mp hx2
      have h2 := List.mem_filter.mp hc
      exact ⟨c, hperm.symm.subset h2.1, h2.2, hceq⟩
  · intro x
    show x ∈ uniqueSortedLevels
        (((specContributors r).filter (fun c => c.isActive)).map
          (fun c => c.contribution)) ↔ _
    rw [uniqueSortedLevels_mem]
    constructor
    · intro h
      obtain ⟨c, hc, hceq⟩ := List.mem_map.mp h
      have h2 := List.mem_filter.mp hc
      exact ⟨c, h2.1, h2.2, hceq⟩
    · rintro ⟨c, hc, hact, hceq⟩
      exact List.mem_map.mpr ⟨c, List.mem_filter.mpr ⟨hc, hact⟩, hceq⟩
  · intro playerHands aw pot ph helig
    have h1 : playerHands.filter
        (fun q => pot.eligibleSeats.contains q.seatIndex) = [ph] := helig
    unfold distributePot
    dsimp only
    rw [h1]
    have h2 : findBestHand [ph] = some ph := rfl
    rw [h2]
    dsimp only
    have h3 : [ph].filter (fun q =>
        q.handRank == ph.handRank && q.highCards == ph.highCards) = [ph] := by
      simp
    rw [h3]
    have hsr : pot.amount.ediv (([ph].length : Int)) +
        pot.amount.emod (([ph].length : Int)) = pot.amount := by
      show pot.amount.ediv 1 + pot.amount.emod 1 = pot.amount
      have ha : pot.amount.emod 1 = 0 := Int.emod_one pot.amount
      have hb : 1 * pot.amount.ediv 1 + pot.amount.emod 1 = pot.amount :=
        Int.ediv_add_emod pot.amount 1
      rw [ha, add_zero, one_mul] at hb
      rw [ha, add_zero]
      exact hb
    have hfin := storeGet_storeSet_self r.players ph.sid
      (fun p => { p with bankroll := p.bankroll +
        (pot.amount.ediv (([ph].length : Int)) +
         pot.amount.emod (([ph].length : Int))) })
    refine hfin.trans ?_
    rw [hsr]
    rfl

/-! ## Heads-up positioning (claim C4)

The clockwise scans `findNextOccupiedSeat` / `findNextActivePlayer` walk
seats `from+1, from+2, ...` modulo the table size. With exactly two occupied
seats the scan started at one of them lands on the other: the cyclic
distance `(other − from) mod n` lies in `[1, n−1]`, every strictly earlier
probe hits an empty seat, and the probe at that distance hits the other
seat. -/

/-- Exactly two occupied seat slots, `d` and `o` (all other slots empty). -/
def twoSeats (r : Room) (d o : Int) : Prop :=
  0 ≤ d ∧ d < (r.maxPlayers : Int) ∧ 0 ≤ o ∧ o < (r.maxPlayers : Int) ∧
  d ≠ o ∧ (seatSid r d).isSome = true ∧ (seatSid r o).isSome = true ∧
  ∀ s : Int, s ≠ d → s ≠ o → seatSid r s = none

theorem seatSid_congr (r1 r2 : Room) (hs : r1.seats = r2.seats) (s : Int) :
    seatSid r1 s = seatSid r2 s := by
  unfold seatSid
  rw [hs]

theorem twoSeats_congr (r1 r2 : Room) (hs : r1.seats = r2.seats)
    (hm : r1.maxPlayers = r2.maxPlayers) (d o : Int) (h : twoSeats r2 d o) :
    twoSeats r1 d o := by
  obtain ⟨h1, h2, h3, h4, h5, h6, h7, h8⟩ := h
  refine ⟨h1, by rw [hm]; exact h2, h3, by rw [hm]; exact h4, h5,
    by rw [seatSid_congr r1 r2 hs]; exact h6,
    by rw [seatSid_congr r1 r2 hs]; exact h7, ?_⟩
  intro s hs1 hs2
  rw [seatSid_congr r1 r2 hs]
  exact h8 s hs1 hs2

theorem twoSeats_swap (r : Room) (d o : Int) (h : twoSeats r d o) :
    twoSeats r o d := by
  obtain ⟨h1, h2, h3, h4, h5, h6, h7, h8⟩ := h
  exact ⟨h3, h4, h1, h2, fun hc => h5 hc.symm, h7, h6,
    fun s hs1 hs2 => h8 s hs2 hs1⟩

theorem cyclic_first_hit (n d o : Int) (hn : 0 < n) (h0d : 0 ≤ d)
    (hdn : d < n) (h0o : 0 ≤ o) (hon : o < n) (hne : d ≠ o) :
    ∃ t : Nat, (t : Int) < n ∧
      (d + ((1 + t : Nat) : Int)).emod n = o ∧
      ∀ j : Nat, j < t →
        (d + ((1 + j : Nat) : Int)).emod n ≠ d ∧
        (d + ((1 + j : Nat) : Int)).emod n ≠ o := by
  have hk0 : 0 ≤ (o - d).emod n := Int.emod_nonneg _ (ne_of_gt hn)
  have hkn : (o - d).emod n < n := Int.emod_lt_of_pos _ hn
  have hq2 : n * ((o - d).ediv n) + (o - d).emod n = o - d :=
    Int.ediv_add_emod (o - d) n
  have hkne : (o - d).emod n ≠ 0 := by
    intro h0
    have hdvd : n ∣ (o - d) := Int.dvd_of_emod_eq_zero h0
    obtain ⟨c, hc⟩ := hdvd
    have hc1 : o - d ≠ 0 := fun hcc => hne (by omega)
    rcases lt_trichotomy c 0 with h | h | h
    · nlinarith
    · exact hc1 (by rw [hc, h, mul_zero])
    · nlinarith
  have hml : ∀ a c : Int, (a + n * c).emod n = a.emod n := fun a c =>
    Int.add_mul_emod_self_left a n c
  refine ⟨((o - d).emod n).toNat - 1, by omega, ?_, ?_⟩
  · have h1t : ((1 + (((o - d).emod n).toNat - 1) : Nat) : Int) =
        (o - d).emod n := by omega
    rw [h1t]
    have hrw : d + (o - d).emod n = o + n * (-((o - d).ediv n)) := by
      have hneg : n * (-((o - d).ediv n)) = -(n * ((o - d).ediv n)) := by ring
      rw [hneg]
      linarith [hq2]
    rw [hrw, hml]
    exact Int.emod_eq_of_lt h0o hon
  · intro j hj
    have hmlt : ((1 + j : Nat) : Int) < (o - d).emod n := by omega
    have hm1 : (1 : Int) ≤ ((1 + j : Nat) : Int) := by omega
    constructor
    · intro hc
      have hd2 : d.emod n = d := Int.emod_eq_of_lt h0d hdn
      have h3 : (d + ((1 + j : Nat) : Int) - d).emod n = 0 :=
        Int.emod_eq_emod_iff_emod_sub_eq_zero.mp (hc.trans hd2.symm)
      have h4 : (d + ((1 + j : Nat) : Int) - d) = ((1 + j : Nat) : Int) := by
        ring
      rw [h4] at h3
      have h5 : ((1 + j : Nat) : Int).emod n = ((1 + j : Nat) : Int) :=
        Int.emod_eq_of_lt (by omega) (by omega)
      omega
    · intro hc
      have ho2 : o.emod n = o := Int.emod_eq_of_lt h0o hon
      have h3 : (d + ((1 + j : Nat) : Int) - o).emod n = 0 :=
        Int.emod_eq_emod_iff_emod_sub_eq_zero.mp (hc.trans ho2.symm)
      have hx : (d + ((1 + j : Nat) : Int) - o) =
          (((1 + j : Nat) : Int) - (o - d).emod n) +
            n * (-((o - d).ediv n)) := by
        have hneg : n * (-((o - d).ediv n)) = -(n * ((o - d).ediv n)) := by
          ring
        rw [hneg]
        linarith [hq2]
      rw [hx, hml] at h3
      have h7 : ((((1 + j : Nat) : Int) - (o - d).emod n) + n).emod n =
          0 := by
        have h7a : ((((1 + j : Nat) : Int) - (o - d).emod n) + n * 1).emod n =
            0 := by
          rw [hml]
          exact h3
        have h8 : ((((1 + j : Nat) : Int) - (o - d).emod n) + n * 1) =
            (((1 + j : Nat) : Int) - (o - d).emod n) + n := by ring
        rw [h8] at h7a
        exact h7a
      have h9 : ((((1 + j : Nat) : Int) - (o - d).emod n) + n).emod n =
          (((1 + j : Nat) : Int) - (o - d).emod n) + n :=
        Int.emod_eq_of_lt (by omega) (by omega)
      omega

theorem scanOccupied_hit (r : Room) (f : Int) :
    ∀ (t i fuel : Nat), t < fuel →
    (∀ j : Nat, j < t →
      (seatSid r ((f + ((i + j : Nat) : Int)).emod
        (r.maxPlayers : Int))).isSome = false) →
    (seatSid r ((f + ((i + t : Nat) : Int)).emod
      (r.maxPlayers : Int))).isSome = true →
    scanOccupied r f i fuel =
      (f + ((i + t : Nat) : Int)).emod (r.maxPlayers : Int)
  | t, _, 0, hlt, _, _ => absurd hlt (Nat.not_lt_zero t)
  | 0, i, fuel + 1, _, _, hhit => by
    show (if (seatSid r ((f + (i : Int)).emod
          (r.maxPlayers : Int))).isSome = true
        then (f + (i : Int)).emod (r.maxPlayers : Int)
        else scanOccupied r f (i + 1) fuel) = _
    have hhit2 : (seatSid r ((f + (i : Int)).emod
        (r.maxPlayers : Int))).isSome = true := hhit
    rw [if_pos hhit2]
    rfl
  | t + 1, i, fuel + 1, hlt, hmiss, hhit => by
    show (if (seatSid r ((f + (i : Int)).emod
          (r.maxPlayers : Int))).isSome = true
        then (f + (i : Int)).emod (r.maxPlayers : Int)
        else scanOccupied r f (i + 1) fuel) =
      (f + ((i + (t + 1) : Nat) : Int)).emod (r.maxPlayers : Int)
    have hm0 : (seatSid r ((f + (i : Int)).emod
        (r.maxPlayers : Int))).isSome = false := hmiss 0 (Nat.succ_pos t)
    have hcond : ¬((seatSid r ((f + (i : Int)).emod
        (r.maxPlayers : Int))).isSome = true) := by
      rw [hm0]
      decide
    rw [if_neg hcond]
    have harg : ∀ j : Nat, j < t →
        (seatSid r ((f + (((i + 1) + j : Nat) : Int)).emod
          (r.maxPlayers : Int))).isSome = false := by
      intro j hj
      have he : ((i + 1) + j : Nat) = (i + (j + 1) : Nat) := by omega
      rw [he]
      exact hmiss (j + 1) (by omega)
    have hhit2 : (seatSid r ((f + (((i + 1) + t : Nat) : Int)).emod
        (r.maxPlayers : Int))).isSome = true := by
      have he : ((i + 1) + t : Nat) = (i + (t + 1) : Nat) := by omega
      rw [he]
      exact hhit
    have hrec := scanOccupied_hit r f t (i + 1) fuel (by omega) harg hhit2
    rw [hrec]
    have he2 : ((i + 1) + t : Nat) = (i + (t + 1) : Nat) := by omega
    rw [he2]

theorem scanActive_hit (r : Room) (f : Int) :
    ∀ (t i fuel : Nat), t < fuel →
    (∀ j : Nat, j < t →
      seatPlayer r ((f + ((i + j : Nat) : Int)).emod
        (r.maxPlayers : Int)) = none) →
    ∀ (p : Player),
    seatPlayer r ((f + ((i + t : Nat) : Int)).emod
      (r.maxPlayers : Int)) = some p →
    (!p.isFolded && !p.isAllIn) = true →
    scanActive r f i fuel =
      some ((f + ((i + t : Nat) : Int)).emod (r.maxPlayers : Int))
  | t, _, 0, hlt, _, _, _, _ => absurd hlt (Nat.not_lt_zero t)
  | 0, i, fuel + 1, _, _, p, hp, hact => by
    show (match seatPlayer r ((f + (i : Int)).emod (r.maxPlayers : Int)) with
      | some q =>
          if !q.isFolded && !q.isAllIn then
            some ((f + (i : Int)).emod (r.maxPlayers : Int))
          else scanActive r f (i + 1) fuel
      | none => scanActive r f (i + 1) fuel) = _
    have hp2 : seatPlayer r ((f + (i : Int)).emod (r.maxPlayers : Int)) =
        some p := hp
    rw [hp2]
    dsimp only
    rw [if_pos hact]
    rfl
  | t + 1, i, fuel + 1, hlt, hmiss, p, hp, hact => by
    show (match seatPlayer r ((f + (i : Int)).emod (r.maxPlayers : Int)) with
      | some q =>
          if !q.isFolded && !q.isAllIn then
            some ((f + (i : Int)).emod (r.maxPlayers : Int))
          else scanActive r f (i + 1) fuel
      | none => scanActive r f (i + 1) fuel) =
      some ((f + ((i + (t + 1) : Nat) : Int)).emod (r.maxPlayers : Int))
    have hm0 : seatPlayer r ((f + (i : Int)).emod (r.maxPlayers : Int)) =
        none := hmiss 0 (Nat.succ_pos t)
    rw [hm0]
    dsimp only
    have harg : ∀ j : Nat, j < t →
        seatPlayer r ((f + (((i + 1) + j : Nat) : Int)).emod
          (r.maxPlayers : Int)) = none := by
      intro j hj
      have he : ((i + 1) + j : Nat) = (i + (j + 1) : Nat) := by omega
      rw [he]
      exact hmiss (j + 1) (by omega)
    have hhit2 : seatPlayer r ((f + (((i + 1) + t : Nat) : Int)).emod
        (r.maxPlayers : Int)) = some p := by
      have he : ((i + 1) + t : Nat) = (i + (t + 1) : Nat) := by omega
      rw [he]
      exact hp
    have hrec := scanActive_hit r f t (i + 1) fuel (by omega) harg p hhit2
      hact
    rw [hrec]
    have he2 : ((i + 1) + t : Nat) = (i + (t + 1) : Nat) := by omega
    rw [he2]

theorem storeSet_get_proj (ps : List (Nat × Player)) (s sid : Nat)
    (f : Player → Player) (pr : Player → Int) (hf : ∀ p, pr (f p) = pr p) :
    (storeGet (storeSet ps s f) sid).map pr = (storeGet ps sid).map pr := by
  by_cases h : s = sid
  · subst h
    rw [storeGet_storeSet_self]
    cases storeGet ps s with
    | none => rfl
    | some p =>
      show some (pr (f p)) = some (pr p)
      rw [hf]
  · rw [storeGet_storeSet_ne ps sid s f h]

theorem dealHoleCards_totalBet :
    ∀ (sids : List Nat) (r : Room) (sid : Nat),
    ((getPlayer (dealHoleCards r sids) sid).map
      (fun p => p.totalBetThisHand)) =
      (getPlayer r sid).map (fun p => p.totalBetThisHand)
  | [], _, _ => rfl
  | s :: t, r, sid => by
    show ((getPlayer (dealHoleCards (dealStep r s) t) sid).map
      (fun p => p.totalBetThisHand)) = _
    rw [dealHoleCards_totalBet t (dealStep r s) sid]
    exact storeSet_get_proj r.players s sid
      (fun p => { p with cards := (dealCards r.deck 2).1 })
      (fun p => p.totalBetThisHand) (fun p => rfl)

theorem foldStoreSet_get (f : Player → Player) (hidem : ∀ p, f (f p) = f p) :
    ∀ (l : List Nat) (ps : List (Nat × Player)) (sid : Nat), sid ∈ l →
    storeGet (l.foldl (fun acc s => storeSet acc s f) ps) sid =
      (storeGet ps sid).map f
  | [], _, sid, hmem => absurd hmem (List.not_mem_nil sid)
  | s :: t, ps, sid, hmem => by
    show storeGet (t.foldl (fun acc s => storeSet acc s f)
      (storeSet ps s f)) sid = _
    by_cases hst : sid ∈ t
    · rw [foldStoreSet_get f hidem t (storeSet ps s f) sid hst]
      by_cases hs : s = sid
      · subst hs
        rw [storeGet_storeSet_self]
        cases storeGet ps s with
        | none => rfl
        | some p =>
          show some (f (f p)) = some (f p)
          rw [hidem]
      · rw [storeGet_storeSet_ne ps sid s f hs]
    · have hs : s = sid := by
        rcases List.mem_cons.mp hmem with h | h
        · exact h.symm
        · exact absurd h hst
      subst hs
      have ht : ∀ x ∈ t, x ≠ s := fun x hx hc => hst (hc ▸ hx)
      rw [foldStoreSet_ne f s t (storeSet ps s f) ht]
      exact storeGet_storeSet_self ps s f

theorem getD_some_mem :
    ∀ (l : List (Option Nat)) (n : Nat) (x : Nat),
    l.getD n none = some x → some x ∈ l
  | [], _, _, h => Option.noConfusion h
  | a :: t, 0, x, h => h ▸ List.mem_cons_self a t
  | a :: t, n + 1, x, h => List.mem_cons_of_mem a (getD_some_mem t n x h)

theorem seatSid_mem_filterMap (r : Room) (i : Int) (sid : Nat)
    (h : seatSid r i = some sid) : sid ∈ r.seats.filterMap id := by
  unfold seatSid at h
  by_cases h0 : 0 ≤ i
  · rw [if_pos h0] at h
    exact List.mem_filterMap.mpr
      ⟨some sid, getD_some_mem r.seats i.toNat sid h, rfl⟩
  · rw [if_neg h0] at h
    exact Option.noConfusion h

theorem postBlind_effect (r : Room) (i amt : Int) (sid : Nat) (p : Player)
    (hs : seatSid r i = some sid) (hp : getPlayer r sid = some p) :
    postBlind r i amt =
      { updatePlayer r sid (fun q =>
          let q1 := { q with
            bankroll := q.bankroll - min amt p.bankroll,
            currentBet := min amt p.bankroll,
            totalBetThisHand := q.totalBetThisHand + min amt p.bankroll }
          if q1.bankroll = 0 then { q1 with isAllIn := true } else q1)
        with pot := r.pot + min amt p.bankroll } := by
  unfold postBlind
  rw [hs]
  dsimp only
  rw [hp]
  rfl

theorem findNextOccupiedSeat_two (r : Room) (d o : Int)
    (h : twoSeats r d o) : findNextOccupiedSeat r d = o := by
  obtain ⟨h0d, hdn, h0o, hon, hne, _, hso, hnone⟩ := h
  have hn : (0 : Int) < (r.maxPlayers : Int) := lt_of_le_of_lt h0d hdn
  obtain ⟨t, htn, hhit, hmiss⟩ :=
    cyclic_first_hit (r.maxPlayers : Int) d o hn h0d hdn h0o hon hne
  have htfuel : t < r.maxPlayers := by exact_mod_cast htn
  have happ := scanOccupied_hit r d t 1 r.maxPlayers htfuel ?_ ?_
  · exact happ.trans hhit
  · intro j hj
    obtain ⟨hj1, hj2⟩ := hmiss j hj
    rw [hnone _ hj1 hj2]
    rfl
  · rw [hhit]
    exact hso

theorem findNextActivePlayer_two (r : Room) (d o : Int) (h : twoSeats r d o)
    (p : Player) (hp : seatPlayer r o = some p)
    (hact : (!p.isFolded && !p.isAllIn) = true) :
    findNextActivePlayer r d = some o := by
  obtain ⟨h0d, hdn, h0o, hon, hne, _, _, hnone⟩ := h
  have hn : (0 : Int) < (r.maxPlayers : Int) := lt_of_le_of_lt h0d hdn
  obtain ⟨t, htn, hhit, hmiss⟩ :=
    cyclic_first_hit (r.maxPlayers : Int) d o hn h0d hdn h0o hon hne
  have htfuel : t < r.maxPlayers := by exact_mod_cast htn
  have happ := scanActive_hit r d t 1 r.maxPlayers htfuel ?_ p ?_ hact
  · refine happ.trans ?_
    rw [hhit]
  · intro j hj
    obtain ⟨hj1, hj2⟩ := hmiss j hj
    show (seatSid r _).bind (getPlayer r) = none
    rw [hnone _ hj1 hj2]
    rfl
  · rw [hhit]
    exact hp

theorem blindUpdate_totalBet (amt cap : Int) (q : Player) :
    ((fun q2 : Player =>
      let q1 := { q2 with bankroll := q2.bankroll - min amt cap, currentBet := min amt cap, totalBetThisHand := q2.totalBetThisHand + min amt cap }
      if q1.bankroll = 0 then { q1 with isAllIn := true } else q1) q).totalBetThisHand =
    q.totalBetThisHand + min amt cap := by
  dsimp only
  by_cases hz : q.bankroll - min amt cap = 0
  · rw [if_pos hz]
  · rw [if_neg hz]

set_option maxHeartbeats 4000000 in
/-- C4. Heads-up positioning: when a hand starts with exactly two seated
participating players (seats `d` and `o`, the button previously on `o`), the
ack succeeds, the dealer button lands on `d`, the small-blind seat is the
dealer `d` and the big-blind seat the other seat `o` (these are exactly the
seats `startHand` posts the small and big blind to), and the dealer acts
first preflop (current turn = `d`); posting a blind commits
`min(amount, stack)` to the poster; and on every postflop street the turn
handed out by the street-advance code is the non-dealer seat `o` (the first
actable seat clockwise from the dealer). -/
theorem headsUp_positioning (r : Room) (shuffled : List Card) (d o : Int)
    (htwo : twoSeats r d o)
    (hprev : r.dealerSeat = o)
    (hsl : (getSeatedPlayers (clearWaitingFlags r)).length = 2) :
    (startHand r shuffled).1 = true ∧
    (startHand r shuffled).2.dealerSeat = d ∧
    (startHand r shuffled).2.sbSeat = d ∧
    (startHand r shuffled).2.bbSeat = o ∧
    (startHand r shuffled).2.currentTurn = some d ∧
    (∀ (rr : Room) (i amt : Int) (sid : Nat) (p : Player),
      seatSid rr i = some sid → getPlayer rr sid = some p →
      (getPlayer (postBlind rr i amt) sid).map
        (fun q => q.totalBetThisHand) =
        some (p.totalBetThisHand + min amt p.bankroll)) ∧
    (∀ (r2 : Room) (p : Player), twoSeats r2 d o → r2.dealerSeat = d →
      r2.runItTwiceAccepted = false → seatPlayer r2 o = some p →
      (!p.isFolded && !p.isAllIn) = true →
      (afterStreet r2 false).currentTurn = some o) := by
  obtain ⟨h0d, hdn, h0o, hon, hne, hoccd, hocco, hnone⟩ := htwo
  have htwo2 : twoSeats r d o :=
    ⟨h0d, hdn, h0o, hon, hne, hoccd, hocco, hnone⟩
  have hr1seats : (clearWaitingFlags r).seats = r.seats := by
    rw [clearWaitingFlags_eq]
  have hr1max : (clearWaitingFlags r).maxPlayers = r.maxPlayers := by
    rw [clearWaitingFlags_eq]
  have hr1dealer : (clearWaitingFlags r).dealerSeat = r.dealerSeat := by
    rw [clearWaitingFlags_eq]
  have hr3seats : (resetSeatedPlayers (resetHandState (clearWaitingFlags r) shuffled) ((getSeatedPlayers (clearWaitingFlags r)).map (fun e => e.1))).seats = r.seats := by
    rw [resetSeatedPlayers_eq]
    exact hr1seats
  have hr3max : (resetSeatedPlayers (resetHandState (clearWaitingFlags r) shuffled) ((getSeatedPlayers (clearWaitingFlags r)).map (fun e => e.1))).maxPlayers = r.maxPlayers := by
    rw [resetSeatedPlayers_eq]
    exact hr1max
  have hr3dealer : (resetSeatedPlayers (resetHandState (clearWaitingFlags r) shuffled) ((getSeatedPlayers (clearWaitingFlags r)).map (fun e => e.1))).dealerSeat = r.dealerSeat := by
    rw [resetSeatedPlayers_eq]
    exact hr1dealer
  have hseats4 : ({ resetSeatedPlayers (resetHandState (clearWaitingFlags r) shuffled) ((getSeatedPlayers (clearWaitingFlags r)).map (fun e => e.1)) with dealerSeat := d } : Room).seats = r.seats := hr3seats
  have hmax4 : ({ resetSeatedPlayers (resetHandState (clearWaitingFlags r) shuffled) ((getSeatedPlayers (clearWaitingFlags r)).map (fun e => e.1)) with dealerSeat := d } : Room).maxPlayers = r.maxPlayers := hr3max
  have hlt : ¬((getSeatedPlayers (clearWaitingFlags r)).length < 2) := by
    rw [hsl]
    omega
  have honeg : ¬(o = (-1 : Int)) := by omega
  have htwoR3 : twoSeats (resetSeatedPlayers (resetHandState (clearWaitingFlags r) shuffled) ((getSeatedPlayers (clearWaitingFlags r)).map (fun e => e.1))) d o :=
    twoSeats_congr _ r hr3seats hr3max d o htwo2
  have hfindd : findNextOccupiedSeat (resetSeatedPlayers (resetHandState (clearWaitingFlags r) shuffled) ((getSeatedPlayers (clearWaitingFlags r)).map (fun e => e.1))) o = d :=
    findNextOccupiedSeat_two _ o d (twoSeats_swap _ d o htwoR3)
  have htwoR4 : twoSeats ({ resetSeatedPlayers (resetHandState (clearWaitingFlags r) shuffled) ((getSeatedPlayers (clearWaitingFlags r)).map (fun e => e.1)) with dealerSeat := d } : Room) d o :=
    twoSeats_congr _ r hseats4 hmax4 d o htwo2
  have hfindo : findNextOccupiedSeat ({ resetSeatedPlayers (resetHandState (clearWaitingFlags r) shuffled) ((getSeatedPlayers (clearWaitingFlags r)).map (fun e => e.1)) with dealerSeat := d } : Room) d = o :=
    findNextOccupiedSeat_two _ d o htwoR4
  have hmain : startHand r shuffled = (true, ({ ({ dealHoleCards ({ postBlind (postBlind ({ resetSeatedPlayers (resetHandState (clearWaitingFlags r) shuffled) ((getSeatedPlayers (clearWaitingFlags r)).map (fun e => e.1)) with dealerSeat := d } : Room) d ({ resetSeatedPlayers (resetHandState (clearWaitingFlags r) shuffled) ((getSeatedPlayers (clearWaitingFlags r)).map (fun e => e.1)) with dealerSeat := d } : Room).smallBlind) o (postBlind ({ resetSeatedPlayers (resetHandState (clearWaitingFlags r) shuffled) ((getSeatedPlayers (clearWaitingFlags r)).map (fun e => e.1)) with dealerSeat := d } : Room) d ({ resetSeatedPlayers (resetHandState (clearWaitingFlags r) shuffled) ((getSeatedPlayers (clearWaitingFlags r)).map (fun e => e.1)) with dealerSeat := d } : Room).smallBlind).bigBlind with currentBet := (postBlind (postBlind ({ resetSeatedPlayers (resetHandState (clearWaitingFlags r) shuffled) ((getSeatedPlayers (clearWaitingFlags r)).map (fun e => e.1)) with dealerSeat := d } : Room) d ({ resetSeatedPlayers (resetHandState (clearWaitingFlags r) shuffled) ((getSeatedPlayers (clearWaitingFlags r)).map (fun e => e.1)) with dealerSeat := d } : Room).smallBlind) o (postBlind ({ resetSeatedPlayers (resetHandState (clearWaitingFlags r) shuffled) ((getSeatedPlayers (clearWaitingFlags r)).map (fun e => e.1)) with dealerSeat := d } : Room) d ({ resetSeatedPlayers (resetHandState (clearWaitingFlags r) shuffled) ((getSeatedPlayers (clearWaitingFlags r)).map (fun e => e.1)) with dealerSeat := d } : Room).smallBlind).bigBlind).bigBlind, minRaise := (postBlind (postBlind ({ resetSeatedPlayers (resetHandState (clearWaitingFlags r) shuffled) ((getSeatedPlayers (clearWaitingFlags r)).map (fun e => e.1)) with dealerSeat := d } : Room) d ({ resetSeatedPlayers (resetHandState (clearWaitingFlags r) shuffled) ((getSeatedPlayers (clearWaitingFlags r)).map (fun e => e.1)) with dealerSeat := d } : Room).smallBlind) o (postBlind ({ resetSeatedPlayers (resetHandState (clearWaitingFlags r) shuffled) ((getSeatedPlayers (clearWaitingFlags r)).map (fun e => e.1)) with dealerSeat := d } : Room) d ({ resetSeatedPlayers (resetHandState (clearWaitingFlags r) shuffled) ((getSeatedPlayers (clearWaitingFlags r)).map (fun e => e.1)) with dealerSeat := d } : Room).smallBlind).bigBlind).bigBlind, lastRaiser := some o, sbSeat := d, bbSeat := o } : Room) ((getSeatedPlayers (clearWaitingFlags r)).map (fun e => e.1)) with phase := Phase.preFlop } : Room) with currentTurn := some d } : Room)) := by
    unfold startHand
    dsimp only
    rw [if_neg hlt]
    rw [hr3dealer, hprev]
    rw [if_neg honeg]
    rw [hfindd]
    rw [if_pos hsl, if_pos hsl]
    rw [hfindo]
  refine ⟨?_, ?_, ?_, ?_, ?_, ?_, ?_⟩
  · rw [hmain]
  · rw [hmain]
    dsimp only
    rw [dealHoleCards_dealerSeat]
    dsimp only
    rw [postBlind_dealerSeat, postBlind_dealerSeat]
  · rw [hmain]
    dsimp only
    rw [dealHoleCards_sbSeat]
  · rw [hmain]
    dsimp only
    rw [dealHoleCards_bbSeat]
  · rw [hmain]
  · intro rr i amt sid p hs hp
    rw [postBlind_effect rr i amt sid p hs hp]
    show ((storeGet (storeSet rr.players sid (fun q => let q1 := ({ q with bankroll := q.bankroll - min amt p.bankroll, currentBet := min amt p.bankroll, totalBetThisHand := q.totalBetThisHand + min amt p.bankroll } : Player); if q1.bankroll = 0 then ({ q1 with isAllIn := true } : Player) else q1)) sid).map (fun q => q.totalBetThisHand)) = some (p.totalBetThisHand + min amt p.bankroll)
    rw [storeGet_storeSet_self]
    have hp2 : storeGet rr.players sid = some p := hp
    rw [hp2]
    exact congrArg some (blindUpdate_totalBet amt p.bankroll p)
  · intro r2 p2 ht2 hd2 hrit hsp hact
    unfold afterStreet
    have hc2 : ¬((false || r2.runItTwiceAccepted) = true) := by
      rw [Bool.false_or, hrit]
      decide
    rw [if_neg hc2]
    dsimp only
    rw [hd2]
    exact findNextActivePlayer_two r2 d o ht2 p2 hsp hact

/-- Concrete heads-up room: two seats, the button on seat 1, blinds 5/10. -/
def huDemoRoom : Room :=
  { maxPlayers := 2, seats := [some 4, some 5],
    players := [(4, mkSeated 100 0), (5, mkSeated 60 1)],
    phase := .waiting, deck := [], communityCards := [], secondBoard := [],
    pot := 0, currentBet := 0, minRaise := 0, smallBlind := 5, bigBlind := 10,
    dealerSeat := 1, sbSeat := -1, bbSeat := -1, currentTurn := none,
    lastRaiser := none, actedThisRound := ∅, isGameRunning := true,
    isPaused := false, handNumber := 0, runItTwiceOffered := false,
    runItTwiceAccepted := false, runItTwiceVotes := [],
    runItTwiceEligiblePlayers := [] }

/-- The same table on the flop with the button on seat 0 (both actable). -/
def huPostRoom : Room :=
  { huDemoRoom with dealerSeat := 0, phase := .flop }

/-- Witness for C4 at the concrete heads-up table: the button moves from
seat 1 to seat 0, seat 0 is small blind and first to act preflop, seat 1 is
big blind; posting the 5-chip small blind commits 5 to seat 0; on the flop
the turn goes to the non-dealer seat 1. -/
theorem headsUp_positioning_witness :
    (huDemoRoom.dealerSeat = 1 ∧
     (getSeatedPlayers (clearWaitingFlags huDemoRoom)).length = 2) ∧
    (startHand huDemoRoom demoDeck).1 = true ∧
    (startHand huDemoRoom demoDeck).2.dealerSeat = 0 ∧
    (startHand huDemoRoom demoDeck).2.sbSeat = 0 ∧
    (startHand huDemoRoom demoDeck).2.bbSeat = 1 ∧
    (startHand huDemoRoom demoDeck).2.currentTurn = some 0 ∧
    ((getPlayer (postBlind huDemoRoom 0 5) 4).map
      (fun q => q.totalBetThisHand)) =
      some ((mkSeated 100 0).totalBetThisHand +
        min 5 (mkSeated 100 0).bankroll) ∧
    (afterStreet huPostRoom false).currentTurn = some 1 := by
  have htwoW : twoSeats huDemoRoom 0 1 := by
    refine ⟨by decide, by decide, by decide, by decide, by decide, by decide,
      by decide, ?_⟩
    intro s h1 h2
    show (if 0 ≤ s then ([some 4, some 5] : List (Option Nat)).getD s.toNat
        none else none) = none
    by_cases h0 : 0 ≤ s
    · rw [if_pos h0]
      obtain ⟨k, hk⟩ : ∃ k, s.toNat = k + 2 := ⟨s.toNat - 2, by omega⟩
      rw [hk]
      rfl
    · rw [if_neg h0]
  have T := headsUp_positioning huDemoRoom demoDeck 0 1 htwoW (by decide)
    (by decide)
  exact ⟨⟨by decide, by decide⟩, T.1, T.2.1, T.2.2.1, T.2.2.2.1, T.2.2.2.2.1,
    T.2.2.2.2.2.1 huDemoRoom 0 5 4 (mkSeated 100 0) (by decide) (by decide),
    T.2.2.2.2.2.2 huPostRoom (mkSeated 60 1)
      (twoSeats_congr huPostRoom huDemoRoom rfl rfl 0 1 htwoW) (by decide)
      (by decide) (by decide) (by decide)⟩

/-- A layer eligible to a single seat (seat 2 only). -/
def oddLonePot : SidePot :=
  { amount := 7, eligibleSeats := [2], level := 99 }

/-- Witness for C1 at the concrete tied-showdown room: its hypotheses hold,
the code layers match the claim's formula pointwise, and a layer whose only
eligible seat is seat 2 is paid to that seat in full. -/
theorem sidePot_layering_witness :
    ((¬((getActivePlayers oddChipRoom).length = 0)) ∧
     specContributors oddChipRoom ≠ []) ∧
    List.Forall₂ specPotMatch (calculateSidePots oddChipRoom)
      (specSidePots oddChipRoom) ∧
    getPlayer (distributePot oddDemoHands ([], oddChipRoom) oddLonePot).2 30 =
      (getPlayer oddChipRoom 30).map
        (fun p => { p with bankroll := p.bankroll + oddLonePot.amount }) :=
  ⟨⟨by decide, by decide⟩,
   (sidePot_layering oddChipRoom (by decide) (by decide)).1.1,
   (sidePot_layering oddChipRoom (by decide) (by decide)).2 oddDemoHands []
     oddLonePot
     { sid := 30, seatIndex := 2, handRank := 3, highCards := [14, 5, 13] }
     (by decide)⟩

/-! ## Hand-value total order (claim C9)

`compareHands` is reflexive and antisymmetric on all hand values; strict
transitivity and "zero exactly on equal values" additionally need the
`highCards` tuples of equal-rank hands to have equal length, which holds for
every value actually produced by `evaluateHand` from at least five distinct
cards (the tuple length is a function of the rank). -/

theorem cmpHigh_nil_left : ∀ l : List Nat, cmpHigh [] l = 0 := fun l => by
  cases l <;> rfl

theorem cmpHigh_nil_right : ∀ l : List Nat, cmpHigh l [] = 0 := fun l => by
  cases l <;> rfl

theorem cmpHigh_cons (a b : Nat) (as bs : List Nat) :
    cmpHigh (a :: as) (b :: bs) =
      if a ≠ b then (a : Int) - (b : Int) else cmpHigh as bs := rfl

theorem cmpHigh_self : ∀ l : List Nat, cmpHigh l l = 0
  | [] => rfl
  | a :: as => by
    rw [cmpHigh_cons, if_neg (fun h => h rfl)]
    exact cmpHigh_self as

theorem cmpHigh_antisymm : ∀ l1 l2 : List Nat,
    cmpHigh l1 l2 = -(cmpHigh l2 l1)
  | [], l2 => by rw [cmpHigh_nil_left, cmpHigh_nil_right]; rfl
  | a :: as, [] => by rw [cmpHigh_nil_left, cmpHigh_nil_right]; rfl
  | a :: as, b :: bs => by
    rw [cmpHigh_cons, cmpHigh_cons]
    by_cases hab : a = b
    · subst hab
      rw [if_neg (fun h => h rfl), if_neg (fun h => h rfl)]
      exact cmpHigh_antisymm as bs
    · rw [if_pos hab, if_pos (fun h => hab h.symm)]
      omega

theorem cmpHigh_trans_pos : ∀ l1 l2 l3 : List Nat,
    l1.length = l2.length → l2.length = l3.length →
    0 < cmpHigh l1 l2 → 0 < cmpHigh l2 l3 → 0 < cmpHigh l1 l3
  | [], l2, l3, _, _, hc1, _ => by
    rw [cmpHigh_nil_left] at hc1
    omega
  | a :: as, [], _, h12, _, _, _ => by simp at h12
  | a :: as, b :: bs, [], _, h23, _, _ => by simp at h23
  | a :: as, b :: bs, c :: cs, h12, h23, hc1, hc2 => by
    rw [cmpHigh_cons] at hc1 hc2 ⊢
    simp only [List.length_cons] at h12 h23
    by_cases hab : a = b
    · subst hab
      rw [if_neg (fun h => h rfl)] at hc1
      by_cases hbc : a = c
      · subst hbc
        rw [if_neg (fun h => h rfl)] at hc2 ⊢
        exact cmpHigh_trans_pos as bs cs (by omega) (by omega) hc1 hc2
      · rw [if_pos hbc] at hc2 ⊢
        exact hc2
    · rw [if_pos hab] at hc1
      by_cases hbc : b = c
      · subst hbc
        rw [if_pos hab]
        exact hc1
      · rw [if_pos hbc] at hc2
        have hac : a ≠ c := by omega
        rw [if_pos hac]
        omega

theorem cmpHigh_eq_zero_iff : ∀ l1 l2 : List Nat, l1.length = l2.length →
    (cmpHigh l1 l2 = 0 ↔ l1 = l2)
  | [], [], _ => by simp [cmpHigh_nil_left]
  | [], b :: bs, h => by simp at h
  | a :: as, [], h => by simp at h
  | a :: as, b :: bs, h => by
    rw [cmpHigh_cons]
    simp only [List.length_cons] at h
    by_cases hab : a = b
    · subst hab
      rw [if_neg (fun hx => hx rfl)]
      rw [cmpHigh_eq_zero_iff as bs (by omega)]
      simp
    · rw [if_pos hab]
      constructor
      · intro hc
        exact absurd (by omega : a = b) hab
      · intro hc
        cases hc
        exact absurd rfl hab

instance : IsTotal (Nat × Nat) cvRel :=
  ⟨fun a b => by
    unfold cvRel
    omega⟩

instance : IsTrans (Nat × Nat) cvRel :=
  ⟨fun a b c hab hbc => by
    unfold cvRel at hab hbc ⊢
    omega⟩

theorem sum_map_add (f g : Nat → Nat) : ∀ l : List Nat,
    (l.map (fun v => f v + g v)).sum = (l.map f).sum + (l.map g).sum
  | [] => rfl
  | x :: t => by
    simp only [List.map_cons, List.sum_cons, sum_map_add f g t]
    omega

theorem sum_indicator_not_mem (x : Nat) : ∀ l : List Nat, x ∉ l →
    (l.map (fun v => if v = x then 1 else 0)).sum = 0
  | [], _ => rfl
  | v :: t, hx => by
    simp only [List.map_cons, List.sum_cons]
    rw [if_neg (fun hc => hx (by rw [← hc]; exact List.mem_cons_self v t)),
      sum_indicator_not_mem x t (fun hc => hx (List.mem_cons_of_mem v hc))]

theorem sum_indicator_range : ∀ (n x : Nat), x < n →
    ((List.range n).map (fun v => if v = x then 1 else 0)).sum = 1 := by
  intro n
  induction n with
  | zero => intro x hx; omega
  | succ m ih =>
    intro x hx
    rw [List.range_succ, List.map_append, List.sum_append]
    by_cases hxm : x = m
    · subst hxm
      rw [sum_indicator_not_mem x (List.range x) (by simp)]
      simp
    · rw [ih x (by omega)]
      have hmx : ¬(m = x) := fun hc => hxm hc.symm
      simp [hmx]

end SevenDeuce

